import Mathlib

set_option autoImplicit false

/-!
Verification development for the price-cache service
(`src/agent_tools/tool_get_price_local.py`).

The Python module keeps a process-wide in-memory cache
`_PRICE_CACHE : symbol -> {"daily": series, "hourly": series, "meta": meta}`,
populated once (under a lock) from a fixed, ordered list of JSONL files, and
answers point lookups of OHLCV bars with an optional Azure Table Storage
fallback.  Below we give a shallow embedding of that module:

* Python dicts become association lists with Python `dict` update semantics
  (`dictGet`, `dictSet`, `dictUpdate`);
* one JSONL line becomes a `Line` (blank / JSON-syntax-error / parsed object);
  lines whose top-level JSON value is not an object, or whose series field is
  not an object of bar objects, are outside the model (the Python code would
  raise an uncaught error on those);
* `_load_jsonl_to_cache` becomes `loadJsonlToCache`, a pure fold over the
  file's lines; a missing file is `Option.none`;
* the load/lookup side effects on the module-level cache are made explicit by
  threading a `CacheState` (loaded flag + cache) through each function, and
  each lookup also reports whether the Azure fallback was consulted;
* the Azure client is a record of total functions returning `Except Unit _`,
  an `Except.error` standing for a raised exception in the Python client;
* the concurrency of `_ensure_cache_loaded` is modelled by an interleaving
  transition system (`stepThread`/`SysStep`) over explicit thread program
  counters, with the double-checked locking of the Python code.
-/

/-- JSON-ish scalar values carried through the cache.  Bars are opaque
payloads to the Python code; it only ever reads five fixed keys out of them
and passes the values through unchanged, so numbers, strings and `null`
cover everything the claims need. -/
inductive Val where
  | num : Int → Val
  | str : String → Val
  | null : Val
deriving DecidableEq, Repr

/-- Python `d[k]` / `d.get(k)` on an association list: first binding wins
(our caches keep keys unique by construction, mirroring `dict`). -/
def dictGet {β : Type} : List (String × β) → String → Option β
  | [], _ => none
  | (k, v) :: rest, key => if k = key then some v else dictGet rest key

/-- Python `d[k] = v`: replace the binding in place if the key is present,
else append, preserving `dict` insertion order. -/
def dictSet {β : Type} : List (String × β) → String → β → List (String × β)
  | [], k, v => [(k, v)]
  | (k', v') :: rest, k, v =>
    if k' = k then (k, v) :: rest else (k', v') :: dictSet rest k v

/-- Python `d.update(e)`: set every binding of `e` into `d`, in order, so a
later binding for the same key overwrites an earlier one. -/
def dictUpdate {β : Type} (d e : List (String × β)) : List (String × β) :=
  e.foldl (fun acc kv => dictSet acc kv.1 kv.2) d

/-- Effective value a Python dict built from the binding list `e` gives key
`key`: the last binding wins. -/
def dictGetLast {β : Type} : List (String × β) → String → Option β
  | [], _ => none
  | (k, v) :: rest, key =>
    match dictGetLast rest key with
    | some w => some w
    | none => if k = key then some v else none

/-- One OHLCV bar as stored in the cache: the raw per-date JSON object. -/
def Bar := List (String × Val)
deriving instance DecidableEq, Repr for Bar

/-- A time series: date/timestamp key to bar, as a Python dict. -/
def Series := List (String × Bar)
deriving instance DecidableEq, Repr for Series

/-- Metadata object of one JSONL document (`"Meta Data"`). -/
def Meta := List (String × Val)
deriving instance DecidableEq, Repr for Meta

/-- One `_PRICE_CACHE` entry: `{"daily": {}, "hourly": {}, "meta": meta}`. -/
structure SymbolRecord where
  daily : Series
  hourly : Series
  meta : Meta
deriving DecidableEq, Repr

/-- The in-memory index `_PRICE_CACHE`. -/
def Cache := List (String × SymbolRecord)
deriving instance DecidableEq, Repr for Cache

/-- The `cache_type` argument of `_load_jsonl_to_cache`. -/
inductive CacheType where
  | daily
  | hourly
deriving DecidableEq, Repr

/-- Series of a record selected by cache type (`_PRICE_CACHE[symbol][cache_type]`). -/
def recSeries (r : SymbolRecord) : CacheType → Series
  | .daily => r.daily
  | .hourly => r.hourly

/-- Record with the selected series replaced. -/
def recSetSeries (r : SymbolRecord) : CacheType → Series → SymbolRecord
  | .daily, s => { r with daily := s }
  | .hourly, s => { r with hourly := s }

/-- One parsed JSONL document: its `"Meta Data"` object and its named
time-series fields (`doc.get(series_key, {})`). -/
structure Doc where
  metaData : Meta
  fields : List (String × Series)
deriving DecidableEq, Repr

/-- One line of a JSONL file as the loader sees it: whitespace-only
(`line.strip()` falsy), invalid JSON (`json.JSONDecodeError`), or a parsed
object. -/
inductive Line where
  | blank : Line
  | malformed : Line
  | doc : Doc → Line
deriving DecidableEq, Repr

/-- Symbol of a document: `doc.get("Meta Data", {}).get("2. Symbol")`, with
the Python truthiness test `if not symbol` — a missing, `null` or empty
symbol is treated as absent.  (Data files carry string symbols.) -/
def symbolOf (d : Doc) : Option String :=
  match dictGet d.metaData "2. Symbol" with
  | some (.str s) => if s = "" then none else some s
  | _ => none

/-- Loader body for one line: returns the updated cache and whether the line
was counted (`count += 1`).  Mirrors the loop body of `_load_jsonl_to_cache`:
blank and malformed lines are skipped, a document without a symbol is skipped
silently, otherwise the record is created on first encounter (with this
line's metadata) and the named series is merged key-wise into the record's
daily/hourly series. -/
def processLine (c : Cache) (seriesKey : String) (ct : CacheType) :
    Line → Cache × Bool
  | .blank => (c, false)
  | .malformed => (c, false)
  | .doc d =>
    match symbolOf d with
    | none => (c, false)
    | some sym =>
      let series := (dictGet d.fields seriesKey).getD []
      let rec0 :=
        match dictGet c sym with
        | some r => r
        | none => { daily := [], hourly := [], meta := d.metaData }
      let rec1 := recSetSeries rec0 ct (dictUpdate (recSeries rec0 ct) series)
      (dictSet c sym rec1, true)

/-- One iteration of the loader loop over the running `(cache, count)`
accumulator. -/
def loadFoldStep (seriesKey : String) (ct : CacheType) (acc : Cache × Nat)
    (ln : Line) : Cache × Nat :=
  let r := processLine acc.1 seriesKey ct ln
  (r.1, acc.2 + (if r.2 then 1 else 0))

/-- Shallow embedding of `_load_jsonl_to_cache`: `none` is a missing file
(logged, zero records); otherwise fold the loop body over the lines,
counting the lines that touched a symbol. -/
def loadJsonlToCache (c : Cache) (file : Option (List Line))
    (seriesKey : String) (ct : CacheType) : Cache × Nat :=
  match file with
  | none => (c, 0)
  | some lines => lines.foldl (loadFoldStep seriesKey ct) (c, 0)

/-- Series key `"Time Series (Daily)"` used for the daily sources. -/
def seriesKeyDaily : String := "Time Series (Daily)"

/-- Series key `"Time Series (60min)"` used for the hourly sources. -/
def seriesKeyHourly : String := "Time Series (60min)"

/-- Contents of the five configured JSONL sources, in the fixed order used by
`_ensure_cache_loaded`; `none` is a missing file. -/
structure LoadEnv where
  usDaily : Option (List Line)
  usHourly : Option (List Line)
  aDaily : Option (List Line)
  aHourly : Option (List Line)
  cryptoDaily : Option (List Line)

/-- The `k`-th load call of `_ensure_cache_loaded` (0-based, in source
order): US daily, US hourly, A-share daily, A-share hourly, crypto daily. -/
def loadStep (env : LoadEnv) (k : Nat) (c : Cache) : Cache :=
  match k with
  | 0 => (loadJsonlToCache c env.usDaily seriesKeyDaily .daily).1
  | 1 => (loadJsonlToCache c env.usHourly seriesKeyHourly .hourly).1
  | 2 => (loadJsonlToCache c env.aDaily seriesKeyDaily .daily).1
  | 3 => (loadJsonlToCache c env.aHourly seriesKeyHourly .hourly).1
  | 4 => (loadJsonlToCache c env.cryptoDaily seriesKeyDaily .daily).1
  | _ => c

/-- Cache after the first `k` load calls. -/
def loadUpTo (env : LoadEnv) : Nat → Cache → Cache
  | 0, c => c
  | k + 1, c => loadStep env k (loadUpTo env k c)

/-- Cache after the whole load sequence of `_ensure_cache_loaded`. -/
def loadAllFiles (env : LoadEnv) (c : Cache) : Cache :=
  loadUpTo env 5 c

/-- The module-level mutable state: `_CACHE_LOADED` and `_PRICE_CACHE`. -/
structure CacheState where
  loaded : Bool
  cache : Cache
deriving DecidableEq, Repr

/-- Sequential meaning of `_ensure_cache_loaded`: if the flag is set do
nothing, otherwise run the five loads over the existing cache and set the
flag.  (The concurrent behaviour is modelled separately below.) -/
def ensureCacheLoaded (env : LoadEnv) (s : CacheState) : CacheState :=
  if s.loaded then s else { loaded := true, cache := loadAllFiles env s.cache }

/-!
Date validation.  `_validate_date_daily` / `_validate_date_hourly` call
`datetime.strptime` with `"%Y-%m-%d"` resp. `"%Y-%m-%d %H:%M:%S"`.  CPython
compiles these formats to the regular expression pieces
`%Y ↦ \d\d\d\d`, `%m ↦ 1[0-2]|0[1-9]|[1-9]`, `%d ↦ 3[01]|[12]\d|0[1-9]|[1-9]`,
`%H ↦ 2[0-3]|[0-1]\d|\d`, `%M ↦ [0-5]\d|\d`, `%S ↦ 6[0-1]|[0-5]\d|\d`, and
rewrites literal whitespace in the format to `\s+`; the match must consume
the whole string, and then the `datetime` constructor additionally requires
`1 ≤ year`, a day valid for the month (with the Gregorian leap rule) and
`second ≤ 59` (the regex alone admits leap seconds 60 and 61).
The recognisers below implement exactly those token languages; the one- and
two-digit alternatives are followed by disjoint continuations (`-`, digit,
whitespace, `:` or end of string), so the ordered regex alternation is
deterministic here.  `\s` is modelled by the six ASCII whitespace
characters; exotic Unicode whitespace is outside the model.
-/

/-- Numeric value of a decimal digit character. -/
def digitVal (c : Char) : Nat := c.toNat - '0'.toNat

/-- Match `%Y`: exactly four decimal digits. -/
def take4Digits : List Char → Option (Nat × List Char)
  | a :: b :: c :: d :: rest =>
    if ('0' ≤ a ∧ a ≤ '9') ∧ ('0' ≤ b ∧ b ≤ '9') ∧ ('0' ≤ c ∧ c ≤ '9') ∧
        ('0' ≤ d ∧ d ≤ '9') then
      some (digitVal a * 1000 + digitVal b * 100 + digitVal c * 10 + digitVal d,
        rest)
    else none
  | _ => none

/-- Match one expected literal character. -/
def expectLit (c : Char) : List Char → Option (List Char)
  | x :: rest => if x = c then some rest else none
  | [] => none

/-- Match `%m` followed by the literal `-`.  The two-digit alternatives of
the regex require a digit in second position, the one-digit alternative a
`-`, so inspecting the second character decides the branch. -/
def monthDash : List Char → Option (Nat × List Char)
  | a :: b :: rest =>
    if b = '-' then
      if '1' ≤ a ∧ a ≤ '9' then some (digitVal a, rest) else none
    else
      (expectLit '-' rest).bind fun rest2 =>
        if a = '1' ∧ ('0' ≤ b ∧ b ≤ '2') then some (10 + digitVal b, rest2)
        else if a = '0' ∧ ('1' ≤ b ∧ b ≤ '9') then some (digitVal b, rest2)
        else none
  | _ => none

/-- Match `%d` at the end of the input. -/
def dayEnd : List Char → Option Nat
  | [a] => if '1' ≤ a ∧ a ≤ '9' then some (digitVal a) else none
  | [a, b] =>
    if a = '3' ∧ ('0' ≤ b ∧ b ≤ '1') then some (30 + digitVal b)
    else if ('1' ≤ a ∧ a ≤ '2') ∧ ('0' ≤ b ∧ b ≤ '9') then
      some (10 * digitVal a + digitVal b)
    else if a = '0' ∧ ('1' ≤ b ∧ b ≤ '9') then some (digitVal b)
    else none
  | _ => none

/-- ASCII whitespace, the characters Python `\s` matches on ASCII input. -/
def isWs (c : Char) : Bool :=
  c = ' ' ∨ c = '\t' ∨ c = '\n' ∨ c = '\x0d' ∨ c = '\x0b' ∨ c = '\x0c'

/-- Drop a (possibly empty) run of whitespace. -/
def skipWsMore : List Char → List Char
  | [] => []
  | c :: rest => if isWs c then skipWsMore rest else c :: rest

/-- Match `\s+`: at least one whitespace character, greedily. -/
def skipWs1 : List Char → Option (List Char)
  | [] => none
  | c :: rest => if isWs c then some (skipWsMore rest) else none

/-- Match the `%d` token alone (two-digit alternatives first, as in the
regex; the continuations decide which branch can succeed). -/
def dayToken : List Char → Option (Nat × List Char)
  | [] => none
  | [a] => if '1' ≤ a ∧ a ≤ '9' then some (digitVal a, []) else none
  | a :: b :: rest =>
    if a = '3' ∧ ('0' ≤ b ∧ b ≤ '1') then some (30 + digitVal b, rest)
    else if ('1' ≤ a ∧ a ≤ '2') ∧ ('0' ≤ b ∧ b ≤ '9') then
      some (10 * digitVal a + digitVal b, rest)
    else if a = '0' ∧ ('1' ≤ b ∧ b ≤ '9') then some (digitVal b, rest)
    else if '1' ≤ a ∧ a ≤ '9' then some (digitVal a, b :: rest)
    else none

/-- Match `%d` followed by the format's literal space, i.e. `\s+`. -/
def daySpace (cs : List Char) : Option (Nat × List Char) :=
  (dayToken cs).bind fun dr => (skipWs1 dr.2).map fun rest2 => (dr.1, rest2)

/-- Match `%H` followed by the literal `:`. -/
def hourColon : List Char → Option (Nat × List Char)
  | a :: b :: rest =>
    if b = ':' then
      if '0' ≤ a ∧ a ≤ '9' then some (digitVal a, rest) else none
    else
      (expectLit ':' rest).bind fun rest2 =>
        if a = '2' ∧ ('0' ≤ b ∧ b ≤ '3') then some (20 + digitVal b, rest2)
        else if ('0' ≤ a ∧ a ≤ '1') ∧ ('0' ≤ b ∧ b ≤ '9') then
          some (10 * digitVal a + digitVal b, rest2)
        else none
  | _ => none

/-- Match `%M` followed by the literal `:`. -/
def minuteColon : List Char → Option (Nat × List Char)
  | a :: b :: rest =>
    if b = ':' then
      if '0' ≤ a ∧ a ≤ '9' then some (digitVal a, rest) else none
    else
      (expectLit ':' rest).bind fun rest2 =>
        if ('0' ≤ a ∧ a ≤ '5') ∧ ('0' ≤ b ∧ b ≤ '9') then
          some (10 * digitVal a + digitVal b, rest2)
        else none
  | _ => none

/-- Match `%S` at the end of the input (the regex admits leap seconds 60 and
61; the `datetime` constructor rejects them later). -/
def secondEnd : List Char → Option Nat
  | [a] => if '0' ≤ a ∧ a ≤ '9' then some (digitVal a) else none
  | [a, b] =>
    if a = '6' ∧ ('0' ≤ b ∧ b ≤ '1') then some (60 + digitVal b)
    else if ('0' ≤ a ∧ a ≤ '5') ∧ ('0' ≤ b ∧ b ≤ '9') then
      some (10 * digitVal a + digitVal b)
    else none
  | _ => none

/-- Regex part of `strptime(s, "%Y-%m-%d")`. -/
def parseDaily (cs : List Char) : Option (Nat × Nat × Nat) :=
  (take4Digits cs).bind fun yr =>
    (expectLit '-' yr.2).bind fun r1 =>
      (monthDash r1).bind fun mr =>
        (dayEnd mr.2).map fun d => (yr.1, mr.1, d)

/-- Regex part of `strptime(s, "%Y-%m-%d %H:%M:%S")`. -/
def parseHourly (cs : List Char) : Option (Nat × Nat × Nat × Nat × Nat × Nat) :=
  (take4Digits cs).bind fun yr =>
    (expectLit '-' yr.2).bind fun r1 =>
      (monthDash r1).bind fun mr =>
        (daySpace mr.2).bind fun dr =>
          (hourColon dr.2).bind fun hr =>
            (minuteColon hr.2).bind fun mir =>
              (secondEnd mir.2).map fun ss =>
                (yr.1, mr.1, dr.1, hr.1, mir.1, ss)

/-- Gregorian leap-year rule used by `datetime`. -/
def isLeap (y : Nat) : Bool := (y % 4 = 0 ∧ y % 100 ≠ 0) ∨ y % 400 = 0

/-- Days in a month, as checked by the `datetime` constructor. -/
def daysInMonth (y m : Nat) : Nat :=
  if m = 2 then (if isLeap y then 29 else 28)
  else if m = 4 ∨ m = 6 ∨ m = 9 ∨ m = 11 then 30
  else 31

/-- Calendar checks of the `datetime` constructor (the regex already bounds
month, hour, minute and second; the year must be at least `MINYEAR = 1` and
the day must fit the month). -/
def validYMD (y m d : Nat) : Bool := 1 ≤ y ∧ d ≤ daysInMonth y m

/-- Shallow embedding of `_validate_date_daily`: true iff
`datetime.strptime(s, "%Y-%m-%d")` does not raise. -/
def validDateDaily (s : String) : Bool :=
  match parseDaily s.data with
  | some (y, m, d) => validYMD y m d
  | none => false

/-- Shallow embedding of `_validate_date_hourly`: true iff
`datetime.strptime(s, "%Y-%m-%d %H:%M:%S")` does not raise. -/
def validDateHourly (s : String) : Bool :=
  match parseHourly s.data with
  | some (y, m, d, _, _, ss) => validYMD y m d && ss ≤ 59
  | none => false

/-- Python `c in s` for a single character `c`. -/
def strContainsChar (s : String) (c : Char) : Bool := s.data.contains c

/-- One Azure Table entity as `_get_from_azure_table` reads it: the five
price attributes, each possibly absent (`entity.get` then yields `None`,
modelled as `Val.null` in the constructed dict). -/
structure AzureEntity where
  openPrice : Option Val
  high : Option Val
  low : Option Val
  close : Option Val
  volume : Option Val

/-- The Azure `TableClient`, as total functions: an `Except.error` is a
raised exception in the Python client (including the not-found error of
`get_entity`), an `Except.ok` a normal return. -/
structure AzureClient where
  getEntity : String → String → Except Unit AzureEntity
  upsertEntity : String → String → Except Unit Unit

/-- The module-level Azure configuration: `_AZURE_ENABLED` and
`_TABLE_CLIENT`. -/
structure AzureEnv where
  enabled : Bool
  client : Option AzureClient

/-- Row key construction shared by `_get_from_azure_table` and
`_save_to_azure_table`: `f"{data_type}_{date}"` for hourly, the date
itself for daily. -/
def rowKeyFor (dt : CacheType) (date : String) : String :=
  match dt with
  | .daily => date
  | .hourly => "hourly_" ++ date

/-- Shallow embedding of `_get_from_azure_table`: `none` when Azure is
disabled, the client is unset, or `get_entity` raises (not-found included);
otherwise the five-key dict built from the entity. -/
def getFromAzureTable (az : AzureEnv) (symbol date : String) (dt : CacheType) :
    Option Bar :=
  if az.enabled = false then none
  else
    match az.client with
    | none => none
    | some cl =>
      match cl.getEntity symbol (rowKeyFor dt date) with
      | .error _ => none
      | .ok e =>
        some [("1. buy price", e.openPrice.getD .null),
          ("2. high", e.high.getD .null),
          ("3. low", e.low.getD .null),
          ("4. sell price", e.close.getD .null),
          ("5. volume", e.volume.getD .null)]

/-- Shallow embedding of `_save_to_azure_table`: `false` when Azure is
disabled, the client is unset, or `upsert_entity` raises; `true` on a
successful upsert.  The written entity's payload does not influence the
returned status, so the model keys the upsert outcome on partition and row
key only. -/
def saveToAzureTable (az : AzureEnv) (symbol date : String) (_ohlcv : Bar)
    (dt : CacheType) : Bool :=
  if az.enabled = false then false
  else
    match az.client with
    | none => false
    | some cl =>
      match cl.upsertEntity symbol (rowKeyFor dt date) with
      | .error _ => false
      | .ok _ => true

/-- The `ohlcv` object of a success response. -/
structure Ohlcv where
  openPrice : Option Val
  high : Option Val
  low : Option Val
  close : Option Val
  volume : Option Val
deriving DecidableEq, Repr

/-- Structured shape of the dicts the lookup functions return: a success
payload, a format-validation error, the key-absent error carrying sample
dates, or the final generic miss. -/
inductive LookupResult where
  | ok (symbol date : String) (ohlcv : Ohlcv)
  | errFormat (message symbol date : String)
  | errNotFoundSample (date : String) (sampleDates : List String) (symbol : String)
  | errNoRecords (symbol date : String)
deriving DecidableEq, Repr

/-- Shallow embedding of `_format_ohlcv_response` (the `ohlcv` part): on
today's date, the open passes through and the other four fields become the
fixed placeholder strings of the source; otherwise all five fields pass
through verbatim, a missing key reading as `None`. -/
def formatOhlcv (dayData : Bar) (isToday : Bool) : Ohlcv :=
  if isToday then
    { openPrice := dictGet dayData "1. buy price"
      high := some (.str "You can not get the current high price")
      low := some (.str "You can not get the current low price")
      close := some (.str "You can not get the next close price")
      volume := some (.str "You can not get the current volume") }
  else
    { openPrice := dictGet dayData "1. buy price"
      high := dictGet dayData "2. high"
      low := dictGet dayData "3. low"
      close := dictGet dayData "4. sell price"
      volume := dictGet dayData "5. volume" }

/-- Shallow embedding of `_format_ohlcv_response`. -/
def formatOhlcvResponse (symbol date : String) (dayData : Bar)
    (isToday : Bool) : LookupResult :=
  .ok symbol date (formatOhlcv dayData isToday)

/-- Insert into a descending-sorted list of keys. -/
def insertDesc (x : String) : List String → List String
  | [] => [x]
  | y :: ys => if y ≤ x then x :: y :: ys else y :: insertDesc x ys

/-- Python `sorted(keys, reverse=True)`. -/
def sortDesc (l : List String) : List String := l.foldr insertDesc []

/-- Outcome of one lookup call: the returned dict, the module state after
the call, and whether the Azure fallback was consulted. -/
structure LookupOut where
  res : LookupResult
  state : CacheState
  remoteQueried : Bool
deriving DecidableEq, Repr

/-- Shallow embedding of `get_price_local_daily`: validate, ensure the cache
is loaded, probe the cache (a hit must be a truthy, i.e. non-empty, bar),
otherwise report sample dates when the symbol has any daily keys, otherwise
fall back to Azure when enabled, otherwise the generic miss. -/
def getPriceLocalDaily (env : LoadEnv) (az : AzureEnv) (today : String)
    (symbol date : String) (s : CacheState) : LookupOut :=
  if validDateDaily date = false then
    { res := .errFormat "date must be in YYYY-MM-DD format" symbol date
      state := s, remoteQueried := false }
  else
    let s1 := ensureCacheLoaded env s
    let azureFallback : LookupOut :=
      if az.enabled then
        match getFromAzureTable az symbol date .daily with
        | some azureData =>
          { res := formatOhlcvResponse symbol date azureData (date = today)
            state := s1, remoteQueried := true }
        | none =>
          { res := .errNoRecords symbol date, state := s1, remoteQueried := true }
      else
        { res := .errNoRecords symbol date, state := s1, remoteQueried := false }
    match dictGet s1.cache symbol with
    | none => azureFallback
    | some symbolData =>
      match dictGet symbolData.daily date with
      | some dayData =>
        if dayData ≠ [] then
          { res := formatOhlcvResponse symbol date dayData (date = today)
            state := s1, remoteQueried := false }
        else
          let availableDates := (sortDesc (symbolData.daily.map Prod.fst)).take 5
          if availableDates ≠ [] then
            { res := .errNotFoundSample date availableDates symbol
              state := s1, remoteQueried := false }
          else azureFallback
      | none =>
        let availableDates := (sortDesc (symbolData.daily.map Prod.fst)).take 5
        if availableDates ≠ [] then
          { res := .errNotFoundSample date availableDates symbol
            state := s1, remoteQueried := false }
        else azureFallback

/-- Shallow embedding of `get_price_local_hourly`, structured exactly like
the daily variant but over the hourly series, format and row key. -/
def getPriceLocalHourly (env : LoadEnv) (az : AzureEnv) (today : String)
    (symbol date : String) (s : CacheState) : LookupOut :=
  if validDateHourly date = false then
    { res := .errFormat "date must be in YYYY-MM-DD HH:MM:SS format" symbol date
      state := s, remoteQueried := false }
  else
    let s1 := ensureCacheLoaded env s
    let azureFallback : LookupOut :=
      if az.enabled then
        match getFromAzureTable az symbol date .hourly with
        | some azureData =>
          { res := formatOhlcvResponse symbol date azureData (date = today)
            state := s1, remoteQueried := true }
        | none =>
          { res := .errNoRecords symbol date, state := s1, remoteQueried := true }
      else
        { res := .errNoRecords symbol date, state := s1, remoteQueried := false }
    match dictGet s1.cache symbol with
    | none => azureFallback
    | some symbolData =>
      match dictGet symbolData.hourly date with
      | some hourData =>
        if hourData ≠ [] then
          { res := formatOhlcvResponse symbol date hourData (date = today)
            state := s1, remoteQueried := false }
        else
          let availableDates := (sortDesc (symbolData.hourly.map Prod.fst)).take 5
          if availableDates ≠ [] then
            { res := .errNotFoundSample date availableDates symbol
              state := s1, remoteQueried := false }
          else azureFallback
      | none =>
        let availableDates := (sortDesc (symbolData.hourly.map Prod.fst)).take 5
        if availableDates ≠ [] then
          { res := .errNotFoundSample date availableDates symbol
            state := s1, remoteQueried := false }
        else azureFallback

/-- Shallow embedding of the public tool `get_price_local`: it first ensures
the cache is loaded (before any validation), then routes on the purely
structural test `' ' in date or 'T' in date`. -/
def getPriceLocal (env : LoadEnv) (az : AzureEnv) (today : String)
    (symbol date : String) (s : CacheState) : LookupOut :=
  let s1 := ensureCacheLoaded env s
  if strContainsChar date ' ' || strContainsChar date 'T' then
    getPriceLocalHourly env az today symbol date s1
  else
    getPriceLocalDaily env az today symbol date s1

/-!
Interleaving model of `_ensure_cache_loaded` under concurrent callers.
Each caller runs the double-checked locking protocol of the source:
read `_CACHE_LOADED` without the lock; if set, return; otherwise acquire
`_CACHE_LOCK`, re-check the flag, and if still unset run the five load calls
(one interleaving-visible step per file, the lock held throughout) before
setting the flag and releasing the lock.  `loads` counts how many times the
bulk-load body was entered.
-/

/-- Program counter of one caller of `_ensure_cache_loaded`:
before the lock-free flag check, waiting on `_CACHE_LOCK`, holding the lock
before the re-check, running the load body with `k` files done, or
returned. -/
inductive ThreadPC where
  | start
  | waitLock
  | locked
  | loading (k : Nat)
  | done
deriving DecidableEq, Repr

/-- Global state of the interleaving model: the callers' program counters,
`_CACHE_LOADED`, the owner of `_CACHE_LOCK`, the number of times the load
body ran, and `_PRICE_CACHE`. -/
structure SysState where
  pcs : List ThreadPC
  flag : Bool
  lockHolder : Option Nat
  loads : Nat
  cache : Cache
deriving DecidableEq, Repr

/-- Initial state for `n` concurrent callers of a fresh process. -/
def initSys (n : Nat) : SysState :=
  { pcs := List.replicate n .start, flag := false, lockHolder := none
    loads := 0, cache := [] }

/-- One atomic step of caller `t`; `none` when `t` cannot move (it has
returned, it does not exist, or it is blocked on the lock). -/
def stepThread (env : LoadEnv) (s : SysState) (t : Nat) : Option SysState :=
  match s.pcs.get? t with
  | none => none
  | some pc =>
    match pc with
    | .start =>
      if s.flag then some { s with pcs := s.pcs.set t .done }
      else some { s with pcs := s.pcs.set t .waitLock }
    | .waitLock =>
      match s.lockHolder with
      | none => some { s with pcs := s.pcs.set t .locked, lockHolder := some t }
      | some _ => none
    | .locked =>
      if s.flag then
        some { s with pcs := s.pcs.set t .done, lockHolder := none }
      else
        some { s with pcs := s.pcs.set t (.loading 0), loads := s.loads + 1 }
    | .loading k =>
      if k < 5 then
        some { s with pcs := s.pcs.set t (.loading (k + 1))
                      cache := loadStep env k s.cache }
      else if k = 5 then
        some { s with pcs := s.pcs.set t .done, flag := true, lockHolder := none }
      else none
    | .done => none

/-- Interleaving step relation: some caller moves. -/
def SysStep (env : LoadEnv) (s s2 : SysState) : Prop :=
  ∃ t, stepThread env s t = some s2

/-- States reachable by `n` concurrent callers from a fresh process. -/
def SysReach (env : LoadEnv) (n : Nat) (s : SysState) : Prop :=
  Relation.ReflTransGen (SysStep env) (initSys n) s

/-- A program counter that owns the critical section. -/
def pcActive : ThreadPC → Bool
  | .locked => true
  | .loading _ => true
  | _ => false

/-- Inductive invariant of the interleaving model. -/
structure SysInv (env : LoadEnv) (n : Nat) (s : SysState) : Prop where
  lenPcs : s.pcs.length = n
  lockIff : ∀ t : Nat, s.lockHolder = some t ↔
    (∃ pc, s.pcs.get? t = some pc ∧ pcActive pc = true)
  flagCache : s.flag = true → s.cache = loadAllFiles env [] ∧ s.loads = 1
  doneFlag : ∀ t : Nat, s.pcs.get? t = some ThreadPC.done → s.flag = true
  loadingInv : ∀ t k : Nat, s.pcs.get? t = some (ThreadPC.loading k) →
    k ≤ 5 ∧ s.cache = loadUpTo env k [] ∧ s.flag = false ∧ s.loads = 1
  idle : s.flag = false → (∀ t k : Nat, s.pcs.get? t ≠ some (ThreadPC.loading k)) →
    s.cache = [] ∧ s.loads = 0


/-!
Lemmas about the Python-dict model.
-/

/-- Setting a key makes it readable. -/
theorem dictGet_dictSet_self {β : Type} (d : List (String × β)) (k : String)
    (v : β) : dictGet (dictSet d k v) k = some v := by
  induction d with
  | nil => simp [dictSet, dictGet]
  | cons kv rest ih =>
    obtain ⟨k1, v1⟩ := kv
    by_cases h : k1 = k
    · subst h; simp [dictSet, dictGet]
    · simp [dictSet, dictGet, h, ih]

/-- Setting a key leaves other keys unchanged. -/
theorem dictGet_dictSet_ne {β : Type} (d : List (String × β)) (k k2 : String)
    (v : β) (h : k ≠ k2) : dictGet (dictSet d k v) k2 = dictGet d k2 := by
  induction d with
  | nil => simp [dictSet, dictGet, h]
  | cons kv rest ih =>
    obtain ⟨k1, v1⟩ := kv
    by_cases h1 : k1 = k
    · subst h1; simp [dictSet, dictGet, h]
    · simp [dictSet, dictGet, h1, ih]

/-- Python `d.update(e)` read back: the last binding of `e` for the key wins,
and keys untouched by `e` keep their value from `d`. -/
theorem dictGet_dictUpdate {β : Type} (e d : List (String × β)) (key : String) :
    dictGet (dictUpdate d e) key =
      match dictGetLast e key with
      | some w => some w
      | none => dictGet d key := by
  induction e generalizing d with
  | nil => rfl
  | cons kv rest ih =>
    obtain ⟨k, v⟩ := kv
    show dictGet (dictUpdate (dictSet d k v) rest) key = _
    rw [ih]
    cases hl : dictGetLast rest key with
    | some w => simp [dictGetLast, hl]
    | none =>
      by_cases h : k = key
      · subst h; simp [dictGetLast, hl, dictGet_dictSet_self]
      · simp [dictGetLast, hl, h, dictGet_dictSet_ne d k key v h]

/-- Reading back the series just written. -/
theorem recSeries_recSetSeries (r : SymbolRecord) (ct : CacheType) (s : Series) :
    recSeries (recSetSeries r ct s) ct = s := by
  cases ct <;> rfl

/-- Writing a series does not change the metadata. -/
theorem recSetSeries_meta (r : SymbolRecord) (ct : CacheType) (s : Series) :
    (recSetSeries r ct s).meta = r.meta := by
  cases ct <;> rfl

/-- C7: merging one later source line for symbol `S` on top of an arbitrary
earlier cache: every key the later line's series binds ends up with the later
line's (last) value; keys the later line does not bind keep the earlier
cache's value; and the record's metadata is still the metadata of the first
encounter of `S` (the earlier cache's, when `S` was already present). -/
theorem load_merge_last_writer_wins (c : Cache) (d : Doc) (skey : String)
    (ct : CacheType) (S K : String) (bar : Bar) (series : Series)
    (hsym : symbolOf d = some S)
    (hser : dictGet d.fields skey = some series)
    (hK : dictGetLast series K = some bar) :
    ∃ r, dictGet (loadJsonlToCache c (some [Line.doc d]) skey ct).1 S = some r
      ∧ dictGet (recSeries r ct) K = some bar
      ∧ (∀ K2 : String, dictGetLast series K2 = none →
          dictGet (recSeries r ct) K2 =
            (match dictGet c S with
             | some old => dictGet (recSeries old ct) K2
             | none => none))
      ∧ r.meta = (match dictGet c S with
                  | some old => old.meta
                  | none => d.metaData) := by
  simp only [loadJsonlToCache, List.foldl, loadFoldStep, processLine, hsym,
    hser, Option.getD]
  refine ⟨_, dictGet_dictSet_self _ _ _, ?_, ?_, ?_⟩
  · rw [recSeries_recSetSeries, dictGet_dictUpdate, hK]
  · intro K2 h2
    rw [recSeries_recSetSeries, dictGet_dictUpdate, h2]
    cases h : dictGet c S <;> cases ct <;> simp [h, recSeries, dictGet]
  · rw [recSetSeries_meta]
    cases h : dictGet c S <;> simp [h]

/-- Earlier-source cache for the merge example: symbol `X` already loaded
with a close of 10 on 2025-01-01. -/
def cacheFirstX : Cache :=
  [("X", { daily := [("2025-01-01", [("4. sell price", Val.num 10)])]
           hourly := []
           meta := [("2. Symbol", Val.str "X"), ("3. Source", Val.str "first")] })]

/-- Later-source document for the merge example: symbol `X` again, close 20
on the same date, different metadata. -/
def docSecondX : Doc :=
  { metaData := [("2. Symbol", Val.str "X"), ("3. Source", Val.str "second")]
    fields := [(seriesKeyDaily, [("2025-01-01", [("4. sell price", Val.num 20)])])] }

/-- The record the merge example produces for `X`:
the later close value under the first-encounter metadata. -/
def recXAfter : SymbolRecord :=
  { daily := [("2025-01-01", [("4. sell price", Val.num 20)])]
    hourly := []
    meta := [("2. Symbol", Val.str "X"), ("3. Source", Val.str "first")] }

/-- Witness for C7 at the spec's own example: two sources define `X` at
2025-01-01 with different close values; the later one wins and the metadata
stays the first encounter's. -/
theorem load_merge_last_writer_wins_witness :
    dictGet (loadJsonlToCache cacheFirstX (some [Line.doc docSecondX])
        seriesKeyDaily .daily).1 "X" = some recXAfter
  ∧ dictGet (recSeries recXAfter .daily) "2025-01-01" =
      some [("4. sell price", Val.num 20)]
  ∧ recXAfter.meta =
      [("2. Symbol", Val.str "X"), ("3. Source", Val.str "first")] := by
  obtain ⟨r, h1, h2, h3, h4⟩ :=
    load_merge_last_writer_wins cacheFirstX docSecondX seriesKeyDaily .daily
      "X" "2025-01-01" [("4. sell price", Val.num 20)]
      [("2025-01-01", [("4. sell price", Val.num 20)])]
      (by decide) (by decide) (by decide)
  have e : dictGet (loadJsonlToCache cacheFirstX (some [Line.doc docSecondX])
      seriesKeyDaily .daily).1 "X" = some recXAfter := by decide
  have hr : r = recXAfter := Option.some.inj (h1.symm.trans e)
  subst hr
  exact ⟨e, h2, h4.trans (by decide)⟩

/-- Lines the loader counts: parsed documents carrying a truthy symbol. -/
def countedLine : Line → Bool
  | .doc d => (symbolOf d).isSome
  | _ => false

/-- The counted flag of one loop iteration does not depend on the cache. -/
theorem processLine_snd (c : Cache) (skey : String) (ct : CacheType)
    (ln : Line) : (processLine c skey ct ln).2 = countedLine ln := by
  cases ln with
  | blank => rfl
  | malformed => rfl
  | doc d =>
    cases h : symbolOf d <;> simp [processLine, countedLine, h]

/-- Count returned by the loader fold, for any starting accumulator. -/
theorem loadFold_count (skey : String) (ct : CacheType) (lines : List Line)
    (c : Cache) (n : Nat) :
    (lines.foldl (loadFoldStep skey ct) (c, n)).2 =
      n + lines.countP countedLine := by
  induction lines generalizing c n with
  | nil => simp
  | cons ln rest ih =>
    rw [List.foldl_cons]
    have hstep : loadFoldStep skey ct (c, n) ln =
        ((processLine c skey ct ln).1,
          n + if countedLine ln then 1 else 0) := by
      simp [loadFoldStep, processLine_snd]
    rw [hstep, ih, List.countP_cons]
    cases h : countedLine ln
    · simp [h]
    · simp [h]
      omega

/-- C8 (amended): a missing file yields `(cache, 0)` without failing; the
returned count is the number of successfully parsed lines that carry a
symbol (a symbol appearing on several lines is counted once per line); and a
malformed line, a blank line, or a line without a symbol is skipped without
aborting the rest of the file. -/
theorem loadSource_error_handling (c : Cache) (skey : String) (ct : CacheType) :
    loadJsonlToCache c none skey ct = (c, 0)
  ∧ (∀ lines, (loadJsonlToCache c (some lines) skey ct).2 =
      lines.countP countedLine)
  ∧ (∀ rest, loadJsonlToCache c (some (Line.malformed :: rest)) skey ct =
      loadJsonlToCache c (some rest) skey ct)
  ∧ (∀ rest, loadJsonlToCache c (some (Line.blank :: rest)) skey ct =
      loadJsonlToCache c (some rest) skey ct)
  ∧ (∀ d rest, symbolOf d = none →
      loadJsonlToCache c (some (Line.doc d :: rest)) skey ct =
        loadJsonlToCache c (some rest) skey ct) := by
  refine ⟨rfl, fun lines => ?_, fun rest => ?_, fun rest => ?_, fun d rest h => ?_⟩
  · simpa using loadFold_count skey ct lines c 0
  · rfl
  · rfl
  · simp [loadJsonlToCache, List.foldl, loadFoldStep, processLine, h]

/-- A parsed document carrying no symbol. -/
def docNoSym : Doc := { metaData := [], fields := [] }

/-- Witness for C8: a symbol-less line is dropped without affecting the rest
of the file, a malformed trailing line does not abort the count of the good
line before it, and a missing file loads as zero records. -/
theorem loadSource_error_handling_witness :
    loadJsonlToCache [] (some [Line.doc docNoSym, Line.doc docSecondX,
        Line.malformed]) seriesKeyDaily .daily =
      loadJsonlToCache [] (some [Line.doc docSecondX, Line.malformed])
        seriesKeyDaily .daily
  ∧ (loadJsonlToCache [] (some [Line.doc docSecondX, Line.malformed])
      seriesKeyDaily .daily).2 = 1
  ∧ loadJsonlToCache [] none seriesKeyDaily .daily = ([], 0) :=
  ⟨(loadSource_error_handling [] seriesKeyDaily .daily).2.2.2.2 docNoSym
      [Line.doc docSecondX, Line.malformed] (by decide),
   by
    rw [(loadSource_error_handling [] seriesKeyDaily .daily).2.1]
    decide,
   (loadSource_error_handling [] seriesKeyDaily .daily).1⟩

/-- Counterexample to C8 as stated: a file with two well-formed lines for
the same symbol `X` makes `_load_jsonl_to_cache` return 2, while only one
symbol was touched (the resulting cache has the single key `X`). -/
theorem loadSource_count_counterexample :
    (loadJsonlToCache [] (some [Line.doc docSecondX, Line.doc docSecondX])
      seriesKeyDaily .daily).2 = 2
  ∧ ((loadJsonlToCache [] (some [Line.doc docSecondX, Line.doc docSecondX])
      seriesKeyDaily .daily).1.map Prod.fst = ["X"]) := by decide

/-- C9: the Azure adapter is total towards its callers.  `get` returns
`none` when Azure is disabled, when no client is configured, and when
`get_entity` raises (a genuine not-found raises too, so the three cases are
indistinguishable); on a normal entity it returns the five-key dict.  `put`
likewise returns `false` on disabled/unset/raise and `true` on a successful
upsert — it never propagates the exception. -/
theorem azure_adapter_never_raises (az : AzureEnv) (symbol date : String)
    (dt : CacheType) (bar : Bar) :
    (az.enabled = false →
      getFromAzureTable az symbol date dt = none
      ∧ saveToAzureTable az symbol date bar dt = false)
  ∧ (az.client = none →
      getFromAzureTable az symbol date dt = none
      ∧ saveToAzureTable az symbol date bar dt = false)
  ∧ (∀ cl e, az.client = some cl →
      cl.getEntity symbol (rowKeyFor dt date) = .error e →
      getFromAzureTable az symbol date dt = none)
  ∧ (∀ cl e, az.client = some cl →
      cl.upsertEntity symbol (rowKeyFor dt date) = .error e →
      saveToAzureTable az symbol date bar dt = false)
  ∧ (∀ cl ent, az.enabled = true → az.client = some cl →
      cl.getEntity symbol (rowKeyFor dt date) = .ok ent →
      getFromAzureTable az symbol date dt =
        some [("1. buy price", ent.openPrice.getD .null),
          ("2. high", ent.high.getD .null),
          ("3. low", ent.low.getD .null),
          ("4. sell price", ent.close.getD .null),
          ("5. volume", ent.volume.getD .null)])
  ∧ (∀ cl, az.enabled = true → az.client = some cl →
      cl.upsertEntity symbol (rowKeyFor dt date) = .ok () →
      saveToAzureTable az symbol date bar dt = true) := by
  refine ⟨fun h => ?_, fun h => ?_, fun cl e hcl he => ?_, fun cl e hcl he => ?_,
    fun cl ent hen hcl he => ?_, fun cl hen hcl he => ?_⟩ <;>
    simp [getFromAzureTable, saveToAzureTable, *]

/-- A client whose calls always raise. -/
def azErrClient : AzureClient :=
  { getEntity := fun _ _ => .error (), upsertEntity := fun _ _ => .error () }

/-- Azure enabled but the store unreachable: every call raises. -/
def azErr : AzureEnv := { enabled := true, client := some azErrClient }

/-- Witness for C9: with an unreachable store, `get` reads as absent and
`put` reports failure, at concrete inputs. -/
theorem azure_adapter_never_raises_witness :
    getFromAzureTable azErr "IBM" "2025-01-02" .daily = none
  ∧ saveToAzureTable azErr "IBM" "2025-01-02" [] .daily = false :=
  ⟨(azure_adapter_never_raises azErr "IBM" "2025-01-02" .daily []).2.2.1
      azErrClient () rfl rfl,
   (azure_adapter_never_raises azErr "IBM" "2025-01-02" .daily []).2.2.2.1
      azErrClient () rfl rfl⟩

/-- C4: the redaction policy of `_format_ohlcv_response` driven by the
`date == get_config_value("TODAY_DATE")` comparison of the lookup functions:
on today's date the open passes through verbatim and high/low/close/volume
become the fixed placeholder strings; on any other date all five fields pass
through verbatim, absent keys reading as `None`. -/
theorem redaction_policy (symbol date today : String) (dayData : Bar) :
    (date = today →
      formatOhlcvResponse symbol date dayData (date = today) =
        .ok symbol date
          { openPrice := dictGet dayData "1. buy price"
            high := some (.str "You can not get the current high price")
            low := some (.str "You can not get the current low price")
            close := some (.str "You can not get the next close price")
            volume := some (.str "You can not get the current volume") })
  ∧ (date ≠ today →
      formatOhlcvResponse symbol date dayData (date = today) =
        .ok symbol date
          { openPrice := dictGet dayData "1. buy price"
            high := dictGet dayData "2. high"
            low := dictGet dayData "3. low"
            close := dictGet dayData "4. sell price"
            volume := dictGet dayData "5. volume" }) := by
  constructor
  · intro h
    simp [formatOhlcvResponse, formatOhlcv, h]
  · intro h
    simp [formatOhlcvResponse, formatOhlcv, h]

/-- A fully populated sample bar. -/
def barIBM : Bar :=
  [("1. buy price", Val.num 100), ("2. high", Val.num 110),
   ("3. low", Val.num 90), ("4. sell price", Val.num 105),
   ("5. volume", Val.num 123456)]

/-- Witness for C4 at concrete dates: redacted on the configured today,
verbatim on a past date. -/
theorem redaction_policy_witness :
    formatOhlcvResponse "IBM" "2025-10-30" barIBM ("2025-10-30" = "2025-10-30") =
      .ok "IBM" "2025-10-30"
        { openPrice := dictGet barIBM "1. buy price"
          high := some (.str "You can not get the current high price")
          low := some (.str "You can not get the current low price")
          close := some (.str "You can not get the next close price")
          volume := some (.str "You can not get the current volume") }
  ∧ formatOhlcvResponse "IBM" "2024-01-02" barIBM ("2024-01-02" = "2025-10-30") =
      .ok "IBM" "2024-01-02"
        { openPrice := dictGet barIBM "1. buy price"
          high := dictGet barIBM "2. high"
          low := dictGet barIBM "3. low"
          close := dictGet barIBM "4. sell price"
          volume := dictGet barIBM "5. volume" } :=
  ⟨(redaction_policy "IBM" "2025-10-30" "2025-10-30" barIBM).1 rfl,
   (redaction_policy "IBM" "2024-01-02" "2025-10-30" barIBM).2 (by decide)⟩

/-- C5: `get_price_local` routes on the purely structural containment test —
a date string containing a space or a capital `T` goes to the hourly
function, any other string to the daily function — before any format
validation, and after the wrapper's own cache-load trigger. -/
theorem granularity_detection (env : LoadEnv) (az : AzureEnv)
    (today symbol date : String) (s : CacheState) :
    ((strContainsChar date ' ' = true ∨ strContainsChar date 'T' = true) →
      getPriceLocal env az today symbol date s =
        getPriceLocalHourly env az today symbol date (ensureCacheLoaded env s))
  ∧ (strContainsChar date ' ' = false → strContainsChar date 'T' = false →
      getPriceLocal env az today symbol date s =
        getPriceLocalDaily env az today symbol date (ensureCacheLoaded env s)) := by
  constructor
  · intro h
    rcases h with h | h <;> simp [getPriceLocal, h]
  · intro h1 h2
    simp [getPriceLocal, h1, h2]

/-- The five configured sources all missing: the load is a no-op. -/
def envTrivial : LoadEnv :=
  { usDaily := none, usHourly := none, aDaily := none, aHourly := none
    cryptoDaily := none }

/-- Azure unconfigured (`_AZURE_ENABLED = False`, `_TABLE_CLIENT = None`). -/
def azOff : AzureEnv := { enabled := false, client := none }

/-- Fresh process state: flag down, empty cache. -/
def initCacheState : CacheState := { loaded := false, cache := [] }

/-- Witness for C5 at the spec's own examples: a timestamp with a space is
routed hourly, a plain date daily. -/
theorem granularity_detection_witness :
    getPriceLocal envTrivial azOff "2025-10-30" "IBM" "2025-10-30 14:30:00"
        (initCacheState) =
      getPriceLocalHourly envTrivial azOff "2025-10-30" "IBM"
        "2025-10-30 14:30:00" (ensureCacheLoaded envTrivial initCacheState)
  ∧ getPriceLocal envTrivial azOff "2025-10-30" "IBM" "2025-10-30"
        (initCacheState) =
      getPriceLocalDaily envTrivial azOff "2025-10-30" "IBM" "2025-10-30"
        (ensureCacheLoaded envTrivial initCacheState) :=
  ⟨(granularity_detection envTrivial azOff "2025-10-30" "IBM"
      "2025-10-30 14:30:00" initCacheState).1 (Or.inl (by decide)),
   (granularity_detection envTrivial azOff "2025-10-30" "IBM"
      "2025-10-30" initCacheState).2 (by decide) (by decide)⟩

/-!
Lemmas about `sorted(keys, reverse=True)[:5]`.
-/

/-- Membership through descending insertion. -/
theorem mem_insertDesc (x a : String) (l : List String) :
    a ∈ insertDesc x l ↔ a = x ∨ a ∈ l := by
  induction l with
  | nil => simp [insertDesc]
  | cons y ys ih =>
    by_cases h : y ≤ x
    · simp [insertDesc, h]
    · simp [insertDesc, h, ih]
      tauto

/-- Descending insertion preserves descending order. -/
theorem pairwise_insertDesc (x : String) (l : List String)
    (hl : l.Pairwise (fun a b => b ≤ a)) :
    (insertDesc x l).Pairwise (fun a b => b ≤ a) := by
  induction l with
  | nil => simp [insertDesc]
  | cons y ys ih =>
    rcases List.pairwise_cons.mp hl with ⟨hy, hys⟩
    by_cases h : y ≤ x
    · show (if y ≤ x then x :: y :: ys else y :: insertDesc x ys).Pairwise _
      rw [if_pos h]
      refine List.pairwise_cons.mpr ⟨?_, hl⟩
      intro z hz
      rcases List.mem_cons.mp hz with hz | hz
      · exact hz ▸ h
      · exact le_trans (hy z hz) h
    · show (if y ≤ x then x :: y :: ys else y :: insertDesc x ys).Pairwise _
      rw [if_neg h]
      refine List.pairwise_cons.mpr ⟨?_, ih hys⟩
      intro z hz
      rcases (mem_insertDesc x z ys).mp hz with hz | hz
      · exact hz ▸ le_of_not_le h
      · exact hy z hz

/-- `sortDesc` is sorted descending. -/
theorem sortDesc_pairwise (l : List String) :
    (sortDesc l).Pairwise (fun a b => b ≤ a) := by
  induction l with
  | nil => simp [sortDesc]
  | cons x xs ih => exact pairwise_insertDesc x (sortDesc xs) ih

/-- `sortDesc` has the same members as its input. -/
theorem mem_sortDesc (a : String) (l : List String) :
    a ∈ sortDesc l ↔ a ∈ l := by
  induction l with
  | nil => simp [sortDesc]
  | cons x xs ih =>
    show a ∈ insertDesc x (sortDesc xs) ↔ _
    rw [mem_insertDesc, ih]
    simp

/-- `sortDesc` of a non-empty list is non-empty. -/
theorem sortDesc_ne_nil (l : List String) (h : l ≠ []) : sortDesc l ≠ [] := by
  cases l with
  | nil => exact absurd rfl h
  | cons x xs =>
    show insertDesc x (sortDesc xs) ≠ []
    cases sortDesc xs with
    | nil => simp [insertDesc]
    | cons y ys =>
      by_cases hy : y ≤ x <;> simp [insertDesc, hy]

/-- Python `lst[:5]` of a non-empty list is non-empty. -/
theorem take5_ne_nil (l : List String) (h : l ≠ []) : l.take 5 ≠ [] := by
  cases l with
  | nil => exact absurd rfl h
  | cons x xs => simp

/-- C10: a symbol whose series for the requested granularity is empty is
handled exactly like a symbol absent from the index: the sample-dates branch
is skipped and the caller sees the same result (Azure fallback when enabled,
else the generic miss), with the same remote-query behaviour. -/
theorem empty_series_like_unknown_symbol (env : LoadEnv) (az : AzureEnv)
    (today symbol date : String) (c c2 : Cache) (rec : SymbolRecord)
    (hrec : dictGet c symbol = some rec) (habs : dictGet c2 symbol = none) :
    (rec.daily = [] →
      (getPriceLocalDaily env az today symbol date
          { loaded := true, cache := c }).res =
        (getPriceLocalDaily env az today symbol date
          { loaded := true, cache := c2 }).res
      ∧ (getPriceLocalDaily env az today symbol date
          { loaded := true, cache := c }).remoteQueried =
        (getPriceLocalDaily env az today symbol date
          { loaded := true, cache := c2 }).remoteQueried)
  ∧ (rec.hourly = [] →
      (getPriceLocalHourly env az today symbol date
          { loaded := true, cache := c }).res =
        (getPriceLocalHourly env az today symbol date
          { loaded := true, cache := c2 }).res
      ∧ (getPriceLocalHourly env az today symbol date
          { loaded := true, cache := c }).remoteQueried =
        (getPriceLocalHourly env az today symbol date
          { loaded := true, cache := c2 }).remoteQueried) := by
  constructor
  · intro hd
    cases hval : validDateDaily date with
    | false => simp [getPriceLocalDaily, hval]
    | true =>
      refine ⟨?_, ?_⟩ <;>
      · simp only [getPriceLocalDaily, hval, ensureCacheLoaded,
          Bool.true_eq_false, if_false, if_true, hrec, habs, hd, dictGet,
          sortDesc, List.map_nil, List.foldr_nil, List.take_nil, ne_eq,
          not_true_eq_false]
        cases henabled : az.enabled
        · simp [henabled]
        · simp only [henabled, if_true]
          cases hga : getFromAzureTable az symbol date CacheType.daily <;>
            simp [hga]
  · intro hh
    cases hval : validDateHourly date with
    | false => simp [getPriceLocalHourly, hval]
    | true =>
      refine ⟨?_, ?_⟩ <;>
      · simp only [getPriceLocalHourly, hval, ensureCacheLoaded,
          Bool.true_eq_false, if_false, if_true, hrec, habs, hh, dictGet,
          sortDesc, List.map_nil, List.foldr_nil, List.take_nil, ne_eq,
          not_true_eq_false]
        cases henabled : az.enabled
        · simp [henabled]
        · simp only [henabled, if_true]
          cases hga : getFromAzureTable az symbol date CacheType.hourly <;>
            simp [hga]

/-- A bar for symbol `B`. -/
def barB : Bar := [("1. buy price", Val.num 7)]

/-- A record with hourly data only (as produced by loading a symbol that
appears only in an hourly source): its daily series is empty. -/
def recB : SymbolRecord :=
  { daily := [], hourly := [("2025-01-02 14:00:00", barB)]
    meta := [("2. Symbol", Val.str "B")] }

/-- Cache holding only `B`. -/
def cacheB : Cache := [("B", recB)]

/-- Witness for C10: `B` is present with an empty daily series; a daily
lookup behaves exactly as if `B` were absent from the index. -/
theorem empty_series_like_unknown_symbol_witness :
    (getPriceLocalDaily envTrivial azOff "2025-12-31" "B" "2025-01-03"
        { loaded := true, cache := cacheB }).res =
      (getPriceLocalDaily envTrivial azOff "2025-12-31" "B" "2025-01-03"
        { loaded := true, cache := [] }).res
  ∧ (getPriceLocalDaily envTrivial azOff "2025-12-31" "B" "2025-01-03"
        { loaded := true, cache := cacheB }).remoteQueried =
      (getPriceLocalDaily envTrivial azOff "2025-12-31" "B" "2025-01-03"
        { loaded := true, cache := [] }).remoteQueried :=
  (empty_series_like_unknown_symbol envTrivial azOff "2025-12-31" "B"
    "2025-01-03" cacheB [] recB (by decide) (by decide)).1 (by decide)

/-- Counterexample to C3 as stated: symbol `B` is present in the index and
the daily key 2025-01-03 is absent from its (empty) daily series, yet the
lookup does not return the sample-dates error — it queries the remote store
(here: enabled but raising) and returns the generic miss. -/
theorem key_absent_sample_counterexample :
    dictGet cacheB "B" = some recB
  ∧ recB.daily = []
  ∧ validDateDaily "2025-01-03" = true
  ∧ getPriceLocalDaily envTrivial azErr "2025-12-31" "B" "2025-01-03"
      { loaded := true, cache := cacheB } =
      { res := .errNoRecords "B" "2025-01-03"
        state := { loaded := true, cache := cacheB }, remoteQueried := true } := by
  refine ⟨rfl, rfl, by decide, rfl⟩

/-- C3 (amended): for a symbol present in the index whose series for the
detected granularity is non-empty, a lookup for an absent key returns the
sample-dates error — at most 5 keys, sorted descending, all drawn from that
symbol's series — immediately, without consulting the remote store
(`remoteQueried = false` for every Azure environment). -/
theorem key_absent_returns_sample_dates (env : LoadEnv) (az : AzureEnv)
    (today symbol date : String) (c : Cache) (rec : SymbolRecord)
    (hrec : dictGet c symbol = some rec) :
    (validDateDaily date = true → dictGet rec.daily date = none →
      rec.daily ≠ [] →
      getPriceLocalDaily env az today symbol date { loaded := true, cache := c } =
        { res := .errNotFoundSample date
            ((sortDesc (rec.daily.map Prod.fst)).take 5) symbol
          state := { loaded := true, cache := c }, remoteQueried := false }
      ∧ ((sortDesc (rec.daily.map Prod.fst)).take 5).length ≤ 5
      ∧ ((sortDesc (rec.daily.map Prod.fst)).take 5).Pairwise (fun a b => b ≤ a)
      ∧ (sortDesc (rec.daily.map Prod.fst)).take 5 ⊆ rec.daily.map Prod.fst)
  ∧ (validDateHourly date = true → dictGet rec.hourly date = none →
      rec.hourly ≠ [] →
      getPriceLocalHourly env az today symbol date { loaded := true, cache := c } =
        { res := .errNotFoundSample date
            ((sortDesc (rec.hourly.map Prod.fst)).take 5) symbol
          state := { loaded := true, cache := c }, remoteQueried := false }
      ∧ ((sortDesc (rec.hourly.map Prod.fst)).take 5).length ≤ 5
      ∧ ((sortDesc (rec.hourly.map Prod.fst)).take 5).Pairwise (fun a b => b ≤ a)
      ∧ (sortDesc (rec.hourly.map Prod.fst)).take 5 ⊆ rec.hourly.map Prod.fst) := by
  constructor
  · intro hval habs hne
    have hkeys : rec.daily.map Prod.fst ≠ [] := by
      simpa using hne
    have hsample : (sortDesc (rec.daily.map Prod.fst)).take 5 ≠ [] :=
      take5_ne_nil _ (sortDesc_ne_nil _ hkeys)
    refine ⟨?_, ?_, ?_, ?_⟩
    · simp only [getPriceLocalDaily, hval, Bool.true_eq_false, if_false,
        ensureCacheLoaded, if_true, hrec, habs, ne_eq, hsample,
        not_false_eq_true]
    · rw [List.length_take]
      exact min_le_left _ _
    · exact (sortDesc_pairwise _).sublist (List.take_sublist _ _)
    · intro x hx
      exact (mem_sortDesc _ _).mp (List.take_subset _ _ hx)
  · intro hval habs hne
    have hkeys : rec.hourly.map Prod.fst ≠ [] := by
      simpa using hne
    have hsample : (sortDesc (rec.hourly.map Prod.fst)).take 5 ≠ [] :=
      take5_ne_nil _ (sortDesc_ne_nil _ hkeys)
    refine ⟨?_, ?_, ?_, ?_⟩
    · simp only [getPriceLocalHourly, hval, Bool.true_eq_false, if_false,
        ensureCacheLoaded, if_true, hrec, habs, ne_eq, hsample,
        not_false_eq_true]
    · rw [List.length_take]
      exact min_le_left _ _
    · exact (sortDesc_pairwise _).sublist (List.take_sublist _ _)
    · intro x hx
      exact (mem_sortDesc _ _).mp (List.take_subset _ _ hx)

/-- A record with two daily keys, used for the sample-dates witness. -/
def recC : SymbolRecord :=
  { daily := [("2025-01-01", barIBM), ("2025-01-03", barIBM)]
    hourly := [], meta := [("2. Symbol", Val.str "C")] }

/-- Cache holding only `C`. -/
def cacheC : Cache := [("C", recC)]

/-- Witness for C3 (amended): looking up an absent date for `C` yields the
sample-dates error with the two stored keys sorted descending, and the
remote store is not consulted even though it is enabled. -/
theorem key_absent_returns_sample_dates_witness :
    getPriceLocalDaily envTrivial azErr "2025-12-31" "C" "2025-02-01"
        { loaded := true, cache := cacheC } =
      { res := .errNotFoundSample "2025-02-01"
          ((sortDesc (recC.daily.map Prod.fst)).take 5) "C"
        state := { loaded := true, cache := cacheC }, remoteQueried := false }
    ∧ ((sortDesc (recC.daily.map Prod.fst)).take 5).length ≤ 5
    ∧ ((sortDesc (recC.daily.map Prod.fst)).take 5).Pairwise (fun a b => b ≤ a)
    ∧ (sortDesc (recC.daily.map Prod.fst)).take 5 ⊆ recC.daily.map Prod.fst :=
  (key_absent_returns_sample_dates envTrivial azErr "2025-12-31" "C"
    "2025-02-01" cacheC recC (by decide)).1 (by decide) (by decide) (by decide)

/-!
A string accepted by the daily parser consists of digits and dashes only,
so the structural granularity test routes every valid daily key to the
daily path.
-/

/-- Characters consumed by `%Y` are digits. -/
theorem take4Digits_chars {cs : List Char} {y : Nat} {rest : List Char}
    (h : take4Digits cs = some (y, rest)) :
    ∀ x ∈ cs, x ∈ rest ∨ ('0' ≤ x ∧ x ≤ '9') := by
  rcases cs with _ | ⟨a, cs⟩
  · exact Option.noConfusion h
  rcases cs with _ | ⟨b, cs⟩
  · exact Option.noConfusion h
  rcases cs with _ | ⟨c, cs⟩
  · exact Option.noConfusion h
  rcases cs with _ | ⟨d, tail⟩
  · exact Option.noConfusion h
  rw [show take4Digits (a :: b :: c :: d :: tail) =
      (if ('0' ≤ a ∧ a ≤ '9') ∧ ('0' ≤ b ∧ b ≤ '9') ∧ ('0' ≤ c ∧ c ≤ '9') ∧
          ('0' ≤ d ∧ d ≤ '9') then
        some (digitVal a * 1000 + digitVal b * 100 + digitVal c * 10 +
          digitVal d, tail)
      else none) from rfl] at h
  split_ifs at h with hc
  · simp only [Option.some.injEq, Prod.mk.injEq] at h
    obtain ⟨-, hrest⟩ := h
    subst hrest
    intro x hx
    rcases List.mem_cons.mp hx with rfl | hx
    · exact Or.inr hc.1
    rcases List.mem_cons.mp hx with rfl | hx
    · exact Or.inr hc.2.1
    rcases List.mem_cons.mp hx with rfl | hx
    · exact Or.inr hc.2.2.1
    rcases List.mem_cons.mp hx with rfl | hx
    · exact Or.inr hc.2.2.2
    · exact Or.inl hx

/-- A matched literal is the head of the input. -/
theorem expectLit_shape {c : Char} {cs rest : List Char}
    (h : expectLit c cs = some rest) : cs = c :: rest := by
  rcases cs with _ | ⟨x, tail⟩
  · exact Option.noConfusion h
  rw [show expectLit c (x :: tail) =
      (if x = c then some tail else none) from rfl] at h
  split_ifs at h with hx
  · simp only [Option.some.injEq] at h
    rw [hx, h]

/-- Characters consumed by `%m-` are digits or a dash. -/
theorem monthDash_chars {cs : List Char} {m : Nat} {rest : List Char}
    (h : monthDash cs = some (m, rest)) :
    ∀ x ∈ cs, x ∈ rest ∨ ('0' ≤ x ∧ x ≤ '9') ∨ x = '-' := by
  rcases cs with _ | ⟨a, _ | ⟨b, tail⟩⟩
  · exact Option.noConfusion h
  · exact Option.noConfusion h
  rw [show monthDash (a :: b :: tail) =
      (if b = '-' then
        if '1' ≤ a ∧ a ≤ '9' then some (digitVal a, tail) else none
      else
        (expectLit '-' tail).bind fun rest2 =>
          if a = '1' ∧ ('0' ≤ b ∧ b ≤ '2') then some (10 + digitVal b, rest2)
          else if a = '0' ∧ ('1' ≤ b ∧ b ≤ '9') then some (digitVal b, rest2)
          else none) from rfl] at h
  by_cases hb : b = '-'
  · rw [if_pos hb] at h
    split_ifs at h with ha
    · simp only [Option.some.injEq, Prod.mk.injEq] at h
      obtain ⟨-, hrest⟩ := h
      subst hrest
      intro x hx
      rcases List.mem_cons.mp hx with rfl | hx
      · exact Or.inr (Or.inl ⟨le_trans (by decide) ha.1, ha.2⟩)
      rcases List.mem_cons.mp hx with rfl | hx
      · exact Or.inr (Or.inr hb)
      · exact Or.inl hx
  · rw [if_neg hb] at h
    rcases he : expectLit '-' tail with _ | rest2
    · rw [he] at h
      exact Option.noConfusion h
    rw [he, Option.some_bind] at h
    have htail : tail = '-' :: rest2 := expectLit_shape he
    have hda : '0' ≤ a ∧ a ≤ '9' := by
      split_ifs at h with h1 h2
      · rw [h1.1]; exact ⟨by decide, by decide⟩
      · rw [h2.1]; exact ⟨by decide, by decide⟩
    have hdb : '0' ≤ b ∧ b ≤ '9' := by
      split_ifs at h with h1 h2
      · exact ⟨h1.2.1, le_trans h1.2.2 (by decide)⟩
      · exact ⟨le_trans (by decide) h2.2.1, h2.2.2⟩
    have hrest : rest = rest2 := by
      split_ifs at h <;>
        · simp only [Option.some.injEq, Prod.mk.injEq] at h
          exact h.2.symm
    subst hrest
    subst htail
    intro x hx
    rcases List.mem_cons.mp hx with rfl | hx
    · exact Or.inr (Or.inl hda)
    rcases List.mem_cons.mp hx with rfl | hx
    · exact Or.inr (Or.inl hdb)
    rcases List.mem_cons.mp hx with rfl | hx
    · exact Or.inr (Or.inr rfl)
    · exact Or.inl hx

/-- Characters consumed by a final `%d` are digits. -/
theorem dayEnd_chars {cs : List Char} {d : Nat} (h : dayEnd cs = some d) :
    ∀ x ∈ cs, ('0' ≤ x ∧ x ≤ '9') := by
  rcases cs with _ | ⟨a, _ | ⟨b, _ | ⟨c, tail⟩⟩⟩
  · exact Option.noConfusion h
  · rw [show dayEnd [a] =
        (if '1' ≤ a ∧ a ≤ '9' then some (digitVal a) else none) from rfl] at h
    split_ifs at h with ha
    · intro x hx
      rcases List.mem_cons.mp hx with rfl | hx
      · exact ⟨le_trans (by decide) ha.1, ha.2⟩
      · simp at hx
  · rw [show dayEnd [a, b] =
        (if a = '3' ∧ ('0' ≤ b ∧ b ≤ '1') then some (30 + digitVal b)
         else if ('1' ≤ a ∧ a ≤ '2') ∧ ('0' ≤ b ∧ b ≤ '9') then
           some (10 * digitVal a + digitVal b)
         else if a = '0' ∧ ('1' ≤ b ∧ b ≤ '9') then some (digitVal b)
         else none) from rfl] at h
    have hda : '0' ≤ a ∧ a ≤ '9' := by
      split_ifs at h with h1 h2 h3
      · rw [h1.1]; exact ⟨by decide, by decide⟩
      · exact ⟨le_trans (by decide) h2.1.1, le_trans h2.1.2 (by decide)⟩
      · rw [h3.1]; exact ⟨by decide, by decide⟩
    have hdb : '0' ≤ b ∧ b ≤ '9' := by
      split_ifs at h with h1 h2 h3
      · exact ⟨h1.2.1, le_trans h1.2.2 (by decide)⟩
      · exact h2.2
      · exact ⟨le_trans (by decide) h3.2.1, h3.2.2⟩
    intro x hx
    rcases List.mem_cons.mp hx with rfl | hx
    · exact hda
    rcases List.mem_cons.mp hx with rfl | hx
    · exact hdb
    · simp at hx
  · exact Option.noConfusion h

/-- Every character of a string the daily parser accepts is a digit or a
dash. -/
theorem parseDaily_chars {cs : List Char} {v : Nat × Nat × Nat}
    (h : parseDaily cs = some v) :
    ∀ x ∈ cs, ('0' ≤ x ∧ x ≤ '9') ∨ x = '-' := by
  unfold parseDaily at h
  rcases h4 : take4Digits cs with _ | ⟨y, rest⟩
  · rw [h4] at h
    exact Option.noConfusion h
  rw [h4, Option.some_bind] at h
  rcases he : expectLit '-' rest with _ | r1
  · rw [he] at h
    exact Option.noConfusion h
  rw [he, Option.some_bind] at h
  rcases hm : monthDash r1 with _ | ⟨m, r2⟩
  · rw [hm] at h
    exact Option.noConfusion h
  rw [hm, Option.some_bind] at h
  rcases hd : dayEnd r2 with _ | dd
  · rw [hd] at h
    exact Option.noConfusion h
  have hrest : rest = '-' :: r1 := expectLit_shape he
  intro x hx
  rcases take4Digits_chars h4 x hx with hx1 | hx1
  · rw [hrest] at hx1
    rcases List.mem_cons.mp hx1 with rfl | hx1
    · exact Or.inr rfl
    rcases monthDash_chars hm x hx1 with hx2 | hx2
    · exact Or.inl (dayEnd_chars hd x hx2)
    · exact hx2
  · exact Or.inl hx1

/-- A valid daily date string contains neither a space nor a `T`, so the
wrapper's structural test routes it to the daily path. -/
theorem validDateDaily_routes_daily (s : String)
    (h : validDateDaily s = true) :
    strContainsChar s ' ' = false ∧ strContainsChar s 'T' = false := by
  unfold validDateDaily at h
  cases hp : parseDaily s.data with
  | none => rw [hp] at h; simp at h
  | some v =>
    constructor
    · by_contra hc
      have hmem : (' ' : Char) ∈ s.data := by
        have h2 := Bool.not_eq_false _ ▸ hc
        simpa [strContainsChar] using h2
      rcases parseDaily_chars hp ' ' hmem with ⟨h1, -⟩ | h1 <;> revert h1 <;>
        decide
    · by_contra hc
      have hmem : ('T' : Char) ∈ s.data := by
        have h2 := Bool.not_eq_false _ ▸ hc
        simpa [strContainsChar] using h2
      rcases parseDaily_chars hp 'T' hmem with ⟨-, h1⟩ | h1 <;> revert h1 <;>
        decide

/-- The stored bar for symbol `A` at 2025-01-02. -/
def barA : Bar := [("1. buy price", Val.num 3), ("2. high", Val.num 5)]

/-- A daily source document for symbol `A`. -/
def docA : Doc :=
  { metaData := [("2. Symbol", Val.str "A")]
    fields := [(seriesKeyDaily, [("2025-01-02", barA)])] }

/-- Load environment whose only source line is `docA`. -/
def envA : LoadEnv :=
  { usDaily := some [Line.doc docA], usHourly := none, aDaily := none
    aHourly := none, cryptoDaily := none }

/-- The cache the loader builds from `envA`. -/
def cacheA : Cache := loadAllFiles envA []

/-- Counterexample to C1 as stated: `A`/2025-01-02 is inserted by the
loader, and after the load `lookup("A", "2025-01-02")` does return a success
result — but when the key equals the configured `TODAY_DATE`, its high (and
low/close/volume) are the redaction placeholders, not the stored bar's
fields, so the fields do not match the last-merged Bar exactly. -/
theorem lookup_verbatim_counterexample :
    dictGet cacheA "A" =
      some { daily := [("2025-01-02", barA)], hourly := []
             meta := [("2. Symbol", Val.str "A")] }
  ∧ (getPriceLocal envA azOff "2025-01-02" "A" "2025-01-02"
      { loaded := true, cache := cacheA }).res =
      .ok "A" "2025-01-02"
        { openPrice := some (Val.num 3)
          high := some (.str "You can not get the current high price")
          low := some (.str "You can not get the current low price")
          close := some (.str "You can not get the next close price")
          volume := some (.str "You can not get the current volume") }
  ∧ some (Val.str "You can not get the current high price") ≠
      dictGet barA "2. high" :=
  ⟨rfl, rfl, by decide⟩

/-- C1 (amended): for every symbol and key stored by the loader, once the
cache is loaded, `lookup` returns the stored bar's five fields verbatim —
provided the key is well-formed for its granularity (hence routed there; an
hourly key must contain a space or `T` to be routed hourly), the stored bar
is truthy (a non-empty object), and the key is not the configured
`TODAY_DATE` (otherwise four fields are redacted, see C4). -/
theorem lookup_returns_last_merged_bar (env : LoadEnv) (az : AzureEnv)
    (today symbol date : String) (rec : SymbolRecord) (bar : Bar) :
    (dictGet (loadAllFiles env []) symbol = some rec →
     validDateDaily date = true →
     dictGet rec.daily date = some bar →
     bar ≠ [] → date ≠ today →
     getPriceLocal env az today symbol date
        { loaded := true, cache := loadAllFiles env [] } =
       { res := .ok symbol date
           { openPrice := dictGet bar "1. buy price"
             high := dictGet bar "2. high"
             low := dictGet bar "3. low"
             close := dictGet bar "4. sell price"
             volume := dictGet bar "5. volume" }
         state := { loaded := true, cache := loadAllFiles env [] }
         remoteQueried := false })
  ∧ (dictGet (loadAllFiles env []) symbol = some rec →
     validDateHourly date = true →
     (strContainsChar date ' ' = true ∨ strContainsChar date 'T' = true) →
     dictGet rec.hourly date = some bar →
     bar ≠ [] → date ≠ today →
     getPriceLocal env az today symbol date
        { loaded := true, cache := loadAllFiles env [] } =
       { res := .ok symbol date
           { openPrice := dictGet bar "1. buy price"
             high := dictGet bar "2. high"
             low := dictGet bar "3. low"
             close := dictGet bar "4. sell price"
             volume := dictGet bar "5. volume" }
         state := { loaded := true, cache := loadAllFiles env [] }
         remoteQueried := false }) := by
  constructor
  · intro hrec hval hbar hbarne hnetoday
    obtain ⟨hs, hT⟩ := validDateDaily_routes_daily date hval
    simp only [getPriceLocal, hs, hT, Bool.or_self, Bool.false_eq_true,
      if_false, ensureCacheLoaded, if_true, getPriceLocalDaily, hval,
      Bool.true_eq_false, hrec, hbar, ne_eq, hbarne, not_false_eq_true,
      formatOhlcvResponse, formatOhlcv, decide_eq_false hnetoday,
      Bool.false_eq_true]
  · intro hrec hval hroute hbar hbarne hnetoday
    have hor : (strContainsChar date ' ' || strContainsChar date 'T') = true := by
      rcases hroute with h | h <;> simp [h]
    simp only [getPriceLocal, hor, if_true, ensureCacheLoaded,
      getPriceLocalHourly, hval, Bool.true_eq_false, if_false, hrec, hbar,
      ne_eq, hbarne, not_false_eq_true, formatOhlcvResponse, formatOhlcv,
      decide_eq_false hnetoday, Bool.false_eq_true]

/-- The stored hourly bar for `A` at 2025-01-02 14:00:00. -/
def barAH : Bar := [("1. buy price", Val.num 9), ("5. volume", Val.num 100)]

/-- An hourly source document for symbol `A`. -/
def docAH : Doc :=
  { metaData := [("2. Symbol", Val.str "A")]
    fields := [(seriesKeyHourly, [("2025-01-02 14:00:00", barAH)])] }

/-- Load environment with a daily and an hourly source for `A`. -/
def envAB : LoadEnv :=
  { usDaily := some [Line.doc docA], usHourly := some [Line.doc docAH]
    aDaily := none, aHourly := none, cryptoDaily := none }

/-- The record the loader builds for `A` from `envAB`. -/
def recAB : SymbolRecord :=
  { daily := [("2025-01-02", barA)]
    hourly := [("2025-01-02 14:00:00", barAH)]
    meta := [("2. Symbol", Val.str "A")] }

/-- Witness for C1 (amended): on a past date, both the daily and the hourly
lookup of the loader-stored keys return the stored bars verbatim. -/
theorem lookup_returns_last_merged_bar_witness :
    getPriceLocal envAB azOff "2025-12-31" "A" "2025-01-02"
        { loaded := true, cache := loadAllFiles envAB [] } =
      { res := .ok "A" "2025-01-02"
          { openPrice := dictGet barA "1. buy price"
            high := dictGet barA "2. high"
            low := dictGet barA "3. low"
            close := dictGet barA "4. sell price"
            volume := dictGet barA "5. volume" }
        state := { loaded := true, cache := loadAllFiles envAB [] }
        remoteQueried := false }
  ∧ getPriceLocal envAB azOff "2025-12-31" "A" "2025-01-02 14:00:00"
        { loaded := true, cache := loadAllFiles envAB [] } =
      { res := .ok "A" "2025-01-02 14:00:00"
          { openPrice := dictGet barAH "1. buy price"
            high := dictGet barAH "2. high"
            low := dictGet barAH "3. low"
            close := dictGet barAH "4. sell price"
            volume := dictGet barAH "5. volume" }
        state := { loaded := true, cache := loadAllFiles envAB [] }
        remoteQueried := false } :=
  ⟨(lookup_returns_last_merged_bar envAB azOff "2025-12-31" "A"
      "2025-01-02" recAB barA).1 (by decide) (by decide) (by decide)
      (by decide) (by decide),
   (lookup_returns_last_merged_bar envAB azOff "2025-12-31" "A"
      "2025-01-02 14:00:00" recAB barAH).2 (by decide) (by decide)
      (Or.inl (by decide)) (by decide) (by decide) (by decide)⟩

/-- Counterexample to C6 as stated: on a fresh process state, the public
`get_price_local("IBM", "2025-13-40")` does return the format error without
consulting the remote store, but it has triggered the bulk load first
(`_ensure_cache_loaded()` runs before format detection and validation), so
the Index is touched: the state after the call has the loaded flag set and
the cache populated. -/
theorem format_error_touches_index_counterexample :
    (getPriceLocal envA azOff "2025-06-01" "IBM" "2025-13-40"
        initCacheState).res =
      .errFormat "date must be in YYYY-MM-DD format" "IBM" "2025-13-40"
  ∧ (getPriceLocal envA azOff "2025-06-01" "IBM" "2025-13-40"
        initCacheState).remoteQueried = false
  ∧ (getPriceLocal envA azOff "2025-06-01" "IBM" "2025-13-40"
        initCacheState).state ≠ initCacheState
  ∧ (getPriceLocal envA azOff "2025-06-01" "IBM" "2025-13-40"
        initCacheState).state = { loaded := true, cache := cacheA } :=
  ⟨rfl, rfl, by decide, rfl⟩

/-- C6 (amended): an input failing strict validation for its detected
granularity yields an error result naming the expected format; the result
value is the same for every index content and every remote store, the
remote store is never queried, and no exception escapes (the functions are
total).  The granularity-specific entry points validate before touching the
cache state; the public wrapper, however, triggers the lazy cache load
before validation, so its returned state is the ensured one. -/
theorem format_error_behaviour (env : LoadEnv) (az : AzureEnv)
    (today symbol date : String) (s : CacheState) :
    (strContainsChar date ' ' = false → strContainsChar date 'T' = false →
     validDateDaily date = false →
       getPriceLocal env az today symbol date s =
         { res := .errFormat "date must be in YYYY-MM-DD format" symbol date
           state := ensureCacheLoaded env s, remoteQueried := false }
       ∧ getPriceLocalDaily env az today symbol date s =
         { res := .errFormat "date must be in YYYY-MM-DD format" symbol date
           state := s, remoteQueried := false })
  ∧ ((strContainsChar date ' ' = true ∨ strContainsChar date 'T' = true) →
     validDateHourly date = false →
       getPriceLocal env az today symbol date s =
         { res := .errFormat "date must be in YYYY-MM-DD HH:MM:SS format"
             symbol date
           state := ensureCacheLoaded env s, remoteQueried := false }
       ∧ getPriceLocalHourly env az today symbol date s =
         { res := .errFormat "date must be in YYYY-MM-DD HH:MM:SS format"
             symbol date
           state := s, remoteQueried := false }) := by
  constructor
  · intro h1 h2 hval
    constructor
    · simp only [getPriceLocal, h1, h2, Bool.or_self, Bool.false_eq_true,
        if_false, getPriceLocalDaily, hval, if_true]
    · simp only [getPriceLocalDaily, hval, if_true]
  · intro hroute hval
    have hor : (strContainsChar date ' ' || strContainsChar date 'T') = true := by
      rcases hroute with h | h <;> simp [h]
    constructor
    · simp only [getPriceLocal, hor, if_true, getPriceLocalHourly, hval]
    · simp only [getPriceLocalHourly, hval, if_true]

/-- Witness for C6 (amended) at concrete malformed inputs: a month-13 date
on the daily path and an hour-25 timestamp on the hourly path. -/
theorem format_error_behaviour_witness :
    (getPriceLocal envA azOff "2025-06-01" "IBM" "2025-13-40"
        initCacheState =
       { res := .errFormat "date must be in YYYY-MM-DD format" "IBM"
           "2025-13-40"
         state := ensureCacheLoaded envA initCacheState
         remoteQueried := false }
     ∧ getPriceLocalDaily envA azOff "2025-06-01" "IBM" "2025-13-40"
        initCacheState =
       { res := .errFormat "date must be in YYYY-MM-DD format" "IBM"
           "2025-13-40"
         state := initCacheState, remoteQueried := false })
  ∧ (getPriceLocal envA azOff "2025-06-01" "IBM" "2025-10-30 25:00:00"
        initCacheState =
       { res := .errFormat "date must be in YYYY-MM-DD HH:MM:SS format" "IBM"
           "2025-10-30 25:00:00"
         state := ensureCacheLoaded envA initCacheState
         remoteQueried := false }
     ∧ getPriceLocalHourly envA azOff "2025-06-01" "IBM" "2025-10-30 25:00:00"
        initCacheState =
       { res := .errFormat "date must be in YYYY-MM-DD HH:MM:SS format" "IBM"
           "2025-10-30 25:00:00"
         state := initCacheState, remoteQueried := false }) :=
  ⟨(format_error_behaviour envA azOff "2025-06-01" "IBM" "2025-13-40"
      initCacheState).1 (by decide) (by decide) (by decide),
   (format_error_behaviour envA azOff "2025-06-01" "IBM" "2025-10-30 25:00:00"
      initCacheState).2 (Or.inl (by decide)) (by decide)⟩

/-!
Invariant proof for the interleaving model of `_ensure_cache_loaded`.
-/

/-- Reading back a just-set program counter. -/
theorem get_set_self {l : List ThreadPC} {t : Nat} {pc : ThreadPC}
    (h : l.get? t = some pc) (v : ThreadPC) : (l.set t v).get? t = some v := by
  rw [List.get?_set_eq, h]
  rfl

/-- Reading a pc list after an update at another position. -/
theorem get_set_other (l : List ThreadPC) {t u : Nat} (h : t ≠ u)
    (v : ThreadPC) : (l.set t v).get? u = l.get? u :=
  List.get?_set_ne v l h

/-- Case split for reading a pc list after one update. -/
theorem set_get_cases {l : List ThreadPC} {t u : Nat} {v pc2 : ThreadPC}
    (h : (l.set t v).get? u = some pc2) :
    (u = t ∧ pc2 = v) ∨ (u ≠ t ∧ l.get? u = some pc2) := by
  by_cases he : u = t
  · subst he
    rw [List.get?_set_eq] at h
    cases hl : l.get? u with
    | none => rw [hl] at h; exact Option.noConfusion h
    | some w =>
      rw [hl] at h
      exact Or.inl ⟨rfl, (Option.some.inj h).symm⟩
  · exact Or.inr ⟨he, by rwa [get_set_other l (fun hh => he hh.symm)] at h⟩

/-- The invariant holds in the initial state. -/
theorem sysInv_init (env : LoadEnv) (n : Nat) : SysInv env n (initSys n) := by
  have hrep : ∀ (t : Nat) (pc : ThreadPC),
      (List.replicate n ThreadPC.start).get? t = some pc →
      pc = ThreadPC.start := by
    intro t pc h
    exact List.eq_of_mem_replicate (List.get?_mem h)
  refine ⟨List.length_replicate n _, ?_, ?_, ?_, ?_, ?_⟩
  · intro t
    constructor
    · intro h
      exact Option.noConfusion h
    · rintro ⟨pc, hp, hact⟩
      rw [hrep t pc hp] at hact
      exact Bool.noConfusion hact
  · intro hf
    exact Bool.noConfusion hf
  · intro t h
    exact ThreadPC.noConfusion (hrep t _ h)
  · intro t k h
    exact ThreadPC.noConfusion (hrep t _ h)
  · intro _ _
    exact ⟨rfl, rfl⟩

/-- One interleaved step preserves the invariant. -/
theorem sysInv_step (env : LoadEnv) (n : Nat) (s s2 : SysState)
    (hi : SysInv env n s) (hs : SysStep env s s2) : SysInv env n s2 := by
  obtain ⟨t, ht⟩ := hs
  unfold stepThread at ht
  cases hpc : s.pcs.get? t with
  | none => rw [hpc] at ht; exact Option.noConfusion ht
  | some pc =>
    rw [hpc] at ht
    cases pc with
    | start =>
      cases hflag : s.flag with
      | true =>
        rw [hflag, if_pos rfl] at ht
        obtain rfl := Option.some.inj ht
        refine ⟨?_, ?_, fun _ => hi.flagCache hflag, ?_, ?_, ?_⟩
        · rw [List.length_set]; exact hi.lenPcs
        · intro u
          constructor
          · intro hh
            obtain ⟨pc2, hget, hact⟩ := (hi.lockIff u).mp hh
            by_cases he : u = t
            · subst he
              rw [hpc] at hget
              obtain rfl := Option.some.inj hget
              exact absurd hact (by decide)
            · exact ⟨pc2, by rwa [get_set_other _ fun hh2 => he hh2.symm],
                hact⟩
          · rintro ⟨pc2, hget2, hact2⟩
            rcases set_get_cases hget2 with ⟨rfl, rfl⟩ | ⟨hne, hold⟩
            · exact absurd hact2 (by decide)
            · exact (hi.lockIff u).mpr ⟨pc2, hold, hact2⟩
        · intro u h
          rfl
        · intro u k h
          rcases set_get_cases h with ⟨rfl, hk⟩ | ⟨-, hold⟩
          · exact ThreadPC.noConfusion hk
          · have hcontra := (hi.loadingInv u k hold).2.2.1
            rw [hflag] at hcontra
            exact Bool.noConfusion hcontra
        · intro hf
          exact Bool.noConfusion hf
      | false =>
        rw [hflag, if_neg (by simp)] at ht
        obtain rfl := Option.some.inj ht
        refine ⟨?_, ?_, fun hf => Bool.noConfusion hf, ?_, ?_, ?_⟩
        · rw [List.length_set]; exact hi.lenPcs
        · intro u
          constructor
          · intro hh
            obtain ⟨pc2, hget, hact⟩ := (hi.lockIff u).mp hh
            by_cases he : u = t
            · subst he
              rw [hpc] at hget
              obtain rfl := Option.some.inj hget
              exact absurd hact (by decide)
            · exact ⟨pc2, by rwa [get_set_other _ fun hh2 => he hh2.symm],
                hact⟩
          · rintro ⟨pc2, hget2, hact2⟩
            rcases set_get_cases hget2 with ⟨rfl, rfl⟩ | ⟨hne, hold⟩
            · exact absurd hact2 (by decide)
            · exact (hi.lockIff u).mpr ⟨pc2, hold, hact2⟩
        · intro u h
          rcases set_get_cases h with ⟨rfl, hk⟩ | ⟨-, hold⟩
          · exact ThreadPC.noConfusion hk
          · have hcontra := hi.doneFlag u hold
            rw [hflag] at hcontra
            exact hcontra
        · intro u k h
          rcases set_get_cases h with ⟨rfl, hk⟩ | ⟨-, hold⟩
          · exact ThreadPC.noConfusion hk
          · obtain ⟨h1, h2, -, h4⟩ := hi.loadingInv u k hold
            exact ⟨h1, h2, rfl, h4⟩
        · intro _ hnl
          refine hi.idle hflag ?_
          intro u k hold
          by_cases he : u = t
          · subst he
            rw [hpc] at hold
            exact ThreadPC.noConfusion (Option.some.inj hold)
          · exact hnl u k
              (by rwa [get_set_other _ fun hh2 => he hh2.symm])
    | waitLock =>
      cases hlh : s.lockHolder with
      | some w => rw [hlh] at ht; exact Option.noConfusion ht
      | none =>
        rw [hlh] at ht
        obtain rfl := Option.some.inj ht
        refine ⟨?_, ?_, hi.flagCache, ?_, ?_, ?_⟩
        · rw [List.length_set]; exact hi.lenPcs
        · intro u
          constructor
          · intro hh
            obtain rfl : t = u := Option.some.inj hh
            exact ⟨ThreadPC.locked, get_set_self hpc _, rfl⟩
          · rintro ⟨pc2, hget2, hact2⟩
            rcases set_get_cases hget2 with ⟨rfl, rfl⟩ | ⟨hne, hold⟩
            · rfl
            · have := (hi.lockIff u).mpr ⟨pc2, hold, hact2⟩
              rw [hlh] at this
              exact Option.noConfusion this
        · intro u h
          rcases set_get_cases h with ⟨rfl, hk⟩ | ⟨-, hold⟩
          · exact ThreadPC.noConfusion hk
          · exact hi.doneFlag u hold
        · intro u k h
          rcases set_get_cases h with ⟨rfl, hk⟩ | ⟨-, hold⟩
          · exact ThreadPC.noConfusion hk
          · exact hi.loadingInv u k hold
        · intro hf hnl
          refine hi.idle hf ?_
          intro u k hold
          by_cases he : u = t
          · subst he
            rw [hpc] at hold
            exact ThreadPC.noConfusion (Option.some.inj hold)
          · exact hnl u k
              (by rwa [get_set_other _ fun hh2 => he hh2.symm])
    | locked =>
      have hholder : s.lockHolder = some t :=
        (hi.lockIff t).mpr ⟨ThreadPC.locked, hpc, rfl⟩
      cases hflag : s.flag with
      | true =>
        rw [hflag, if_pos rfl] at ht
        obtain rfl := Option.some.inj ht
        refine ⟨?_, ?_, fun _ => hi.flagCache hflag, ?_, ?_, ?_⟩
        · rw [List.length_set]; exact hi.lenPcs
        · intro u
          constructor
          · intro hh
            exact Option.noConfusion hh
          · rintro ⟨pc2, hget2, hact2⟩
            rcases set_get_cases hget2 with ⟨rfl, rfl⟩ | ⟨hne, hold⟩
            · exact absurd hact2 (by decide)
            · have := (hi.lockIff u).mpr ⟨pc2, hold, hact2⟩
              rw [hholder] at this
              exact absurd (Option.some.inj this) (fun hh2 => hne hh2.symm)
        · intro u h
          rfl
        · intro u k h
          rcases set_get_cases h with ⟨rfl, hk⟩ | ⟨-, hold⟩
          · exact ThreadPC.noConfusion hk
          · have hcontra := (hi.loadingInv u k hold).2.2.1
            rw [hflag] at hcontra
            exact Bool.noConfusion hcontra
        · intro hf
          exact Bool.noConfusion hf
      | false =>
        rw [hflag, if_neg (by simp)] at ht
        obtain rfl := Option.some.inj ht
        have hnoload : ∀ u k : Nat,
            s.pcs.get? u ≠ some (ThreadPC.loading k) := by
          intro u k hold
          have := (hi.lockIff u).mpr ⟨ThreadPC.loading k, hold, rfl⟩
          rw [hholder] at this
          obtain rfl := Option.some.inj this
          rw [hpc] at hold
          exact ThreadPC.noConfusion (Option.some.inj hold)
        obtain ⟨hcache0, hloads0⟩ := hi.idle hflag hnoload
        refine ⟨?_, ?_, ?_, ?_, ?_, ?_⟩
        · rw [List.length_set]; exact hi.lenPcs
        · intro u
          constructor
          · intro hh
            rw [hholder] at hh
            obtain rfl := Option.some.inj hh
            exact ⟨ThreadPC.loading 0, get_set_self hpc _, rfl⟩
          · rintro ⟨pc2, hget2, hact2⟩
            rcases set_get_cases hget2 with ⟨rfl, rfl⟩ | ⟨hne, hold⟩
            · exact hholder
            · have := (hi.lockIff u).mpr ⟨pc2, hold, hact2⟩
              rw [hholder] at this
              exact absurd (Option.some.inj this) (fun hh2 => hne hh2.symm)
        · intro hf
          exact Bool.noConfusion hf
        · intro u h
          rcases set_get_cases h with ⟨rfl, hk⟩ | ⟨-, hold⟩
          · exact ThreadPC.noConfusion hk
          · have hcontra := hi.doneFlag u hold
            rw [hflag] at hcontra
            exact Bool.noConfusion hcontra
        · intro u k h
          rcases set_get_cases h with ⟨rfl, hk⟩ | ⟨hne, hold⟩
          · obtain rfl := ThreadPC.loading.inj hk
            refine ⟨by omega, hcache0, rfl, ?_⟩
            show s.loads + 1 = 1
            rw [hloads0]
          · exact absurd hold (hnoload u k)
        · intro hf hnl
          exact absurd (get_set_self hpc (ThreadPC.loading 0)) (hnl t 0)
    | loading k =>
      have hholder : s.lockHolder = some t :=
        (hi.lockIff t).mpr ⟨ThreadPC.loading k, hpc, rfl⟩
      obtain ⟨hk5, hcacheK, hflagF, hloads1⟩ := hi.loadingInv t k hpc
      have hmutex : ∀ u : Nat, u ≠ t → ∀ pc2 : ThreadPC,
          s.pcs.get? u = some pc2 → pcActive pc2 = true → False := by
        intro u hne pc2 hold hact
        have := (hi.lockIff u).mpr ⟨pc2, hold, hact⟩
        rw [hholder] at this
        exact hne (Option.some.inj this).symm
      have ht2 : (if k < 5 then
            some { s with pcs := s.pcs.set t (ThreadPC.loading (k + 1))
                          cache := loadStep env k s.cache }
          else if k = 5 then
            some { s with pcs := s.pcs.set t ThreadPC.done, flag := true
                          lockHolder := none }
          else none) = some s2 := ht
      by_cases hk : k < 5
      · rw [if_pos hk] at ht2
        obtain rfl := Option.some.inj ht2
        refine ⟨?_, ?_, ?_, ?_, ?_, ?_⟩
        · rw [List.length_set]; exact hi.lenPcs
        · intro u
          constructor
          · intro hh
            rw [hholder] at hh
            obtain rfl := Option.some.inj hh
            exact ⟨ThreadPC.loading (k + 1), get_set_self hpc _, rfl⟩
          · rintro ⟨pc2, hget2, hact2⟩
            rcases set_get_cases hget2 with ⟨rfl, rfl⟩ | ⟨hne, hold⟩
            · exact hholder
            · exact absurd (hmutex u hne pc2 hold hact2) not_false
        · intro hf
          have hf2 : s.flag = true := hf
          rw [hflagF] at hf2
          exact Bool.noConfusion hf2
        · intro u h
          rcases set_get_cases h with ⟨rfl, hk2⟩ | ⟨-, hold⟩
          · exact ThreadPC.noConfusion hk2
          · have hcontra := hi.doneFlag u hold
            rw [hflagF] at hcontra
            exact Bool.noConfusion hcontra
        · intro u k2 h
          rcases set_get_cases h with ⟨rfl, hk2⟩ | ⟨hne, hold⟩
          · obtain rfl : k2 = k + 1 := ThreadPC.loading.inj hk2
            refine ⟨by omega, ?_, hflagF, hloads1⟩
            show loadStep env k s.cache = loadUpTo env (k + 1) []
            rw [hcacheK]
            rfl
          · exact absurd (hmutex u hne _ hold rfl) not_false
        · intro hf hnl
          exact absurd (get_set_self hpc (ThreadPC.loading (k + 1)))
            (hnl t (k + 1))
      · rw [if_neg hk] at ht2
        have hk5e : k = 5 := by omega
        rw [if_pos hk5e] at ht2
        obtain rfl := Option.some.inj ht2
        subst hk5e
        refine ⟨?_, ?_, ?_, ?_, ?_, ?_⟩
        · rw [List.length_set]; exact hi.lenPcs
        · intro u
          constructor
          · intro hh
            exact Option.noConfusion hh
          · rintro ⟨pc2, hget2, hact2⟩
            rcases set_get_cases hget2 with ⟨rfl, rfl⟩ | ⟨hne, hold⟩
            · exact absurd hact2 (by decide)
            · exact absurd (hmutex u hne pc2 hold hact2) not_false
        · intro _
          exact ⟨hcacheK, hloads1⟩
        · intro u _
          rfl
        · intro u k2 h
          rcases set_get_cases h with ⟨rfl, hk2⟩ | ⟨hne, hold⟩
          · exact ThreadPC.noConfusion hk2
          · exact absurd (hmutex u hne _ hold rfl) not_false
        · intro hf
          exact Bool.noConfusion hf
    | done => exact Option.noConfusion ht

/-- The invariant holds in every reachable state. -/
theorem sysInv_reach (env : LoadEnv) (n : Nat) (s : SysState)
    (h : SysReach env n s) : SysInv env n s := by
  induction h with
  | refl => exact sysInv_init env n
  | tail hr hstep ih => exact sysInv_step env n _ _ ih hstep

/-- C2: under any number of concurrent callers of `_ensure_cache_loaded`,
in every reachable state the bulk-load body has run at most once; any caller
that has returned sees the flag set and the fully populated index (equal to
the single sequential load, so no partially-populated index is ever
observed); and once all of at least one caller have returned, the load has
run exactly once and the index equals the sequential result. -/
theorem ensure_loaded_exactly_once (env : LoadEnv) (n : Nat) (s : SysState)
    (h : SysReach env n s) :
    s.loads ≤ 1
  ∧ (∀ t : Nat, s.pcs.get? t = some ThreadPC.done →
      s.flag = true ∧ s.cache = loadAllFiles env [])
  ∧ (0 < n → (∀ t pc, s.pcs.get? t = some pc → pc = ThreadPC.done) →
      s.loads = 1 ∧ s.cache = loadAllFiles env []) := by
  have hi := sysInv_reach env n s h
  have hdone : ∀ t : Nat, s.pcs.get? t = some ThreadPC.done →
      s.flag = true ∧ s.cache = loadAllFiles env [] := by
    intro t ht
    have hf := hi.doneFlag t ht
    exact ⟨hf, (hi.flagCache hf).1⟩
  refine ⟨?_, hdone, ?_⟩
  · cases hf : s.flag with
    | true => exact le_of_eq (hi.flagCache hf).2
    | false =>
      by_cases hl : ∃ t k : Nat, s.pcs.get? t = some (ThreadPC.loading k)
      · obtain ⟨t, k, ht⟩ := hl
        exact le_of_eq (hi.loadingInv t k ht).2.2.2
      · push_neg at hl
        have h0 := (hi.idle hf fun u k => hl u k).2
        omega
  · intro hn hall
    cases hp0 : s.pcs.get? 0 with
    | none =>
      rw [List.get?_eq_none] at hp0
      rw [hi.lenPcs] at hp0
      omega
    | some pc0 =>
      have hpd : s.pcs.get? 0 = some ThreadPC.done := by
        rw [hp0, hall 0 pc0 hp0]
      obtain ⟨hf, hc⟩ := hdone 0 hpd
      exact ⟨(hi.flagCache hf).2, hc⟩

/-- Final state of a single caller's complete run over the trivial load
environment. -/
def sysFinal : SysState :=
  { pcs := [ThreadPC.done], flag := true, lockHolder := none, loads := 1
    cache := [] }

/-- A full concrete execution: one caller takes the lock, runs the five
loads, sets the flag and returns. -/
theorem sysReach_final : SysReach envTrivial 1 sysFinal := by
  have r1 : SysReach envTrivial 1
      { pcs := [ThreadPC.waitLock], flag := false, lockHolder := none
        loads := 0, cache := [] } :=
    Relation.ReflTransGen.tail Relation.ReflTransGen.refl ⟨0, by decide⟩
  have r2 : SysReach envTrivial 1
      { pcs := [ThreadPC.locked], flag := false, lockHolder := some 0
        loads := 0, cache := [] } :=
    Relation.ReflTransGen.tail r1 ⟨0, by decide⟩
  have r3 : SysReach envTrivial 1
      { pcs := [ThreadPC.loading 0], flag := false, lockHolder := some 0
        loads := 1, cache := [] } :=
    Relation.ReflTransGen.tail r2 ⟨0, by decide⟩
  have r4 : SysReach envTrivial 1
      { pcs := [ThreadPC.loading 1], flag := false, lockHolder := some 0
        loads := 1, cache := [] } :=
    Relation.ReflTransGen.tail r3 ⟨0, by decide⟩
  have r5 : SysReach envTrivial 1
      { pcs := [ThreadPC.loading 2], flag := false, lockHolder := some 0
        loads := 1, cache := [] } :=
    Relation.ReflTransGen.tail r4 ⟨0, by decide⟩
  have r6 : SysReach envTrivial 1
      { pcs := [ThreadPC.loading 3], flag := false, lockHolder := some 0
        loads := 1, cache := [] } :=
    Relation.ReflTransGen.tail r5 ⟨0, by decide⟩
  have r7 : SysReach envTrivial 1
      { pcs := [ThreadPC.loading 4], flag := false, lockHolder := some 0
        loads := 1, cache := [] } :=
    Relation.ReflTransGen.tail r6 ⟨0, by decide⟩
  have r8 : SysReach envTrivial 1
      { pcs := [ThreadPC.loading 5], flag := false, lockHolder := some 0
        loads := 1, cache := [] } :=
    Relation.ReflTransGen.tail r7 ⟨0, by decide⟩
  exact Relation.ReflTransGen.tail r8 ⟨0, by decide⟩

/-- Witness for C2: in the concrete completed run, the loader ran exactly
once and the index equals the sequential load of the configured sources. -/
theorem ensure_loaded_exactly_once_witness :
    sysFinal.loads = 1 ∧ sysFinal.cache = loadAllFiles envTrivial [] :=
  (ensure_loaded_exactly_once envTrivial 1 sysFinal sysReach_final).2.2
    (by decide)
    (by
      intro t pc hp
      cases t with
      | zero => exact (Option.some.inj hp).symm
      | succ t2 => exact Option.noConfusion hp)
